import Mathlib

/-!
Verification development for the `emo` repository.

The repository's algorithmic core lives in `config/emo.py`: a name
normalizer (`to_name`), a line-oriented registry builder
(`RegistryParser`), selector resolution (`Registry.select`), a LaTeX
table-entry emitter, and a PDF document-graph patcher
(`remove_page_group_object`).  Prototype variants of the emitter and the
patcher live in `emo.py`, `scripts/emo.py` and `scripts/fix-page-groups.py`.

Python strings are sequences of Unicode codepoints; we model them as
`List Nat`.  All definitions below are executable and translated directly
from the Python source; deviations forced by the embedding (ASCII-only
lower-casing, elision of the regex lexer) are noted at each definition.
-/

set_option maxRecDepth 20000

/-- Convert a Lean string literal to the Python-string model, a list of
Unicode codepoints. -/
def pystr (s : String) : List Nat := s.data.map Char.toNat

/-- Python `str.lower` on one codepoint, restricted to ASCII.  (Python
lower-cases the full Unicode range; every string the program manipulates
with `lower()` — group names, statuses, emoji names from
`emoji-test.txt` — is ASCII, so the restriction is faithful there.) -/
def lowerCp (c : Nat) : Nat := if 65 ≤ c ∧ c ≤ 90 then c + 32 else c

/-- Python `str.lower`, codepoint-wise (ASCII restriction, see `lowerCp`). -/
def pyLower (s : List Nat) : List Nat := s.map lowerCp

/-- The character class of `PUNCTUATION = re.compile(r'["\x27’“”&!(),.:]')`
from `config/emo.py`. -/
def punctCps : List Nat := pystr "\"'’“”&!(),.:"

/-- `PUNCTUATION.sub('', name)`: delete every punctuation character. -/
def stripPunct (s : List Nat) : List Nat := s.filter (fun c => !(punctCps.contains c))

/-- Membership in the character class of `SEPARATORS = re.compile(r'[ _\-]+')`:
space, underscore, hyphen. -/
def isSepCp (c : Nat) : Bool := c == 32 || c == 95 || c == 45

/-- Worker for `SEPARATORS.sub('-', name)`: each maximal run of
separators becomes a single hyphen.  `prevSep` records whether the
previous character belonged to a (already replaced) run. -/
def collapseAux : Bool → List Nat → List Nat
  | _, [] => []
  | prevSep, c :: rest =>
    if isSepCp c then
      if prevSep then collapseAux true rest else 45 :: collapseAux true rest
    else c :: collapseAux false rest

/-- `SEPARATORS.sub('-', name)` from `to_name` in `config/emo.py`. -/
def collapseSep (s : List Nat) : List Nat := collapseAux false s

/-- Worker for Python `str.replace`: scan left to right, replace each
non-overlapping occurrence of `p`, never re-scanning the replacement.
The fuel argument only forces structural termination; `pyReplace` passes
`s.length`, which is enough fuel since every step consumes at least one
character of `s` (all patterns used are non-empty). -/
def replAux (p r : List Nat) : Nat → List Nat → List Nat
  | _, [] => []
  | 0, s => s
  | fuel + 1, s@(c :: rest) =>
    if p.isPrefixOf s then r ++ replAux p r fuel (s.drop p.length)
    else c :: replAux p r fuel rest

/-- Python `s.replace(p, r)` for non-empty `p`. -/
def pyReplace (s p r : List Nat) : List Nat := replAux p r s.length s

/-- Python `p in s` for strings: `p` occurs as a contiguous substring. -/
def containsSeq (p : List Nat) : List Nat → Bool
  | [] => p.isEmpty
  | s@(_ :: rest) => p.isPrefixOf s || containsSeq p rest

/-- The `RENAMING` table of historical name overrides from `config/emo.py`. -/
def RENAMING : List (List Nat × List Nat) := [
  (pystr "a-button-blood-type", pystr "a-button"),
  (pystr "ab-button-blood-type", pystr "ab-button"),
  (pystr "b-button-blood-type", pystr "b-button"),
  (pystr "o-button-blood-type", pystr "o-button"),
  (pystr "bust-in-silhouette", pystr "bust"),
  (pystr "busts-in-silhouette", pystr "busts"),
  (pystr "flag-european-union", pystr "eu"),
  (pystr "globe-showing-americas", pystr "globe-americas"),
  (pystr "globe-showing-asia-australia", pystr "globe-asia-australia"),
  (pystr "globe-showing-europe-africa", pystr "globe-africa-europe"),
  (pystr "hear-no-evil-monkey", pystr "hear-no-evil"),
  (pystr "index-pointing-at-the-viewer", pystr "index-pointing-at-viewer"),
  (pystr "index-pointing-at-the-viewer-darkest", pystr "index-pointing-at-viewer-darkest"),
  (pystr "index-pointing-at-the-viewer-darker", pystr "index-pointing-at-viewer-darker"),
  (pystr "index-pointing-at-the-viewer-medium", pystr "index-pointing-at-viewer-medium"),
  (pystr "index-pointing-at-the-viewer-lighter", pystr "index-pointing-at-viewer-lighter"),
  (pystr "index-pointing-at-the-viewer-lightest", pystr "index-pointing-at-viewer-lightest"),
  (pystr "keycap-*", pystr "keycap-star"),
  (pystr "keycap-#", pystr "keycap-hash"),
  (pystr "keycap-0", pystr "keycap-zero"),
  (pystr "keycap-1", pystr "keycap-one"),
  (pystr "keycap-2", pystr "keycap-two"),
  (pystr "keycap-3", pystr "keycap-three"),
  (pystr "keycap-4", pystr "keycap-four"),
  (pystr "keycap-5", pystr "keycap-five"),
  (pystr "keycap-6", pystr "keycap-six"),
  (pystr "keycap-7", pystr "keycap-seven"),
  (pystr "keycap-8", pystr "keycap-eight"),
  (pystr "keycap-9", pystr "keycap-nine"),
  (pystr "keycap-10", pystr "keycap-ten"),
  (pystr "magnifying-glass-tilted-left", pystr "loupe-left"),
  (pystr "magnifying-glass-tilted-right", pystr "loupe-right"),
  (pystr "palm-down-hand", pystr "palm-down"),
  (pystr "palm-down-hand-darkest", pystr "palm-down-darkest"),
  (pystr "palm-down-hand-darker", pystr "palm-down-darker"),
  (pystr "palm-down-hand-medium", pystr "palm-down-medium"),
  (pystr "palm-down-hand-lighter", pystr "palm-down-lighter"),
  (pystr "palm-down-hand-lightest", pystr "palm-down-lightest"),
  (pystr "palm-up-hand", pystr "palm-up"),
  (pystr "palm-up-hand-darkest", pystr "palm-up-darkest"),
  (pystr "palm-up-hand-darker", pystr "palm-up-darker"),
  (pystr "palm-up-hand-medium", pystr "palm-up-medium"),
  (pystr "palm-up-hand-lighter", pystr "palm-up-lighter"),
  (pystr "palm-up-hand-lightest", pystr "palm-up-lightest"),
  (pystr "rolling-on-the-floor-laughing", pystr "rofl"),
  (pystr "see-no-evil-monkey", pystr "see-no-evil"),
  (pystr "speak-no-evil-monkey", pystr "speak-no-evil")]

/-- Python `dict` lookup over an association list (first match). -/
def alookup {α β : Type} [DecidableEq α] (k : α) : List (α × β) → Option β
  | [] => none
  | (k', v) :: rest => if k = k' then some v else alookup k rest

/-- The ordered list of skin-tone replacements from `to_name`
("Use simpler skin tone indicators. Do not reorder."). -/
def skinReplacements : List (List Nat × List Nat) := [
  (pystr "medium-dark-skin-tone", pystr "darker"),
  (pystr "medium-light-skin-tone", pystr "lighter"),
  (pystr "medium-skin-tone", pystr "medium"),
  (pystr "dark-skin-tone", pystr "darkest"),
  (pystr "light-skin-tone", pystr "lightest")]

/-- The five `name.replace(...)` calls of `to_name`, in source order. -/
def applyReplacements (s : List Nat) : List Nat :=
  skinReplacements.foldl (fun acc pr => pyReplace acc pr.1 pr.2) s

/-- `to_name` from `config/emo.py`: lower-case, strip punctuation,
collapse separator runs to hyphens, simplify skin-tone phrases, then
apply the `RENAMING` override table. -/
def to_name (value : List Nat) : List Nat :=
  let name := pyLower value
  let name := stripPunct name
  let name := collapseSep name
  let name := applyReplacements name
  (alookup name RENAMING).getD name


/-- Python `list.dropWhile`-style trim of leading spaces (codepoint 32). -/
def trimStartSp (s : List Nat) : List Nat := s.dropWhile (fun c => c == 32)

/-- Trim trailing spaces. -/
def trimEndSp (s : List Nat) : List Nat := (s.reverse.dropWhile (fun c => c == 32)).reverse

/-- Split a string at every ampersand (codepoint 38). -/
def splitAmp : List Nat → List (List Nat)
  | [] => [[]]
  | c :: rest =>
    if c = 38 then [] :: splitAmp rest
    else
      match splitAmp rest with
      | [] => [[c]]
      | h :: t => (c :: h) :: t

/-- Glue the pieces following the first ampersand: every piece but the
last is trimmed on both sides, the last only on the left, and each is
preceded by "-and-". -/
def ampGlue : List (List Nat) → List Nat
  | [] => []
  | [p] => pystr "-and-" ++ trimStartSp p
  | p :: rest => pystr "-and-" ++ trimStartSp (trimEndSp p) ++ ampGlue rest

/-- `AMPERSAND.sub('-and-', s)` where `AMPERSAND = re.compile('[ ]*&[ ]*')`:
every ampersand, together with all adjacent spaces, becomes "-and-". -/
def ampSub (s : List Nat) : List Nat :=
  match splitAmp s with
  | [] => []
  | [p] => p
  | p :: rest => trimEndSp p ++ ampGlue rest

/-- The `SHORT_GROUPS` alias table from `config/emo.py`. -/
def SHORT_GROUPS : List (List Nat × List Nat) := [
  (pystr "animals", pystr "animals-and-nature"),
  (pystr "body", pystr "people-and-body"),
  (pystr "drink", pystr "food-and-drink"),
  (pystr "emotion", pystr "smileys-and-emotion"),
  (pystr "food", pystr "food-and-drink"),
  (pystr "nature", pystr "animals-and-nature"),
  (pystr "people", pystr "people-and-body"),
  (pystr "places", pystr "travel-and-places"),
  (pystr "smileys", pystr "smileys-and-emotion"),
  (pystr "travel", pystr "travel-and-places")]

/-- `to_group` from `config/emo.py`. -/
def to_group (group : List Nat) : List Nat :=
  let g := pyLower group
  let g := (alookup g SHORT_GROUPS).getD g
  ampSub g

/-- `to_subgroup` from `config/emo.py`. -/
def to_subgroup (subgroup : List Nat) : List Nat := ampSub (pyLower subgroup)

/-- The four qualification statuses of the `Status` enum. -/
inductive Status where
  | component
  | fully_qualified
  | minimally_qualified
  | unqualified
deriving DecidableEq

/-- The `Emoji` dataclass of `config/emo.py`.  The `display` field is
derived (`__post_init__` joins `chr(cp)` over the codepoints), so in the
codepoint-list string model it coincides with `codepoints` and is exposed
as `Emoji.display` below.  Python stores `version` as a float parsed from
the version token; no claimed behaviour depends on its numeric value, so
the raw token is kept. -/
structure Emoji where
  name : List Nat
  codepoints : List Nat
  status : Option Status
  version : Option (List Nat)
deriving DecidableEq

/-- The derived `display` field: the emoji itself as a string. -/
def Emoji.display (e : Emoji) : List Nat := e.codepoints

/-- `Emoji.of` applied to an already tokenized data line: the raw name is
normalized through `to_name`; codepoints arrive as the integer sequence
produced by `to_codepoints` on the hex tokens (hex lexing elided). -/
def Emoji.of (name : List Nat) (cps : List Nat) (status : Option Status)
    (version : Option (List Nat)) : Emoji :=
  ⟨to_name name, cps, status, version⟩

/-- Property `Emoji.is_component`. -/
def Emoji.is_component (e : Emoji) : Bool := e.status = some Status.component

/-- Property `Emoji.is_fully_qualified`. -/
def Emoji.is_fully_qualified (e : Emoji) : Bool := e.status = some Status.fully_qualified

/-- Property `Emoji.has_compound_name`: the name contains a hyphen. -/
def Emoji.has_compound_name (e : Emoji) : Bool := e.name.contains 45

/-- Python `dict` assignment `d[k] = v` over an association list: an
existing key keeps its position with the value replaced; a new key is
appended. -/
def dinsert {α β : Type} [DecidableEq α] (k : α) (v : β) : List (α × β) → List (α × β)
  | [] => [(k, v)]
  | (k', v') :: rest => if k' = k then (k, v) :: rest else (k', v') :: dinsert k v rest

/-- Apply `f` to the value of the first entry with key `k` (Python's
in-place mutation of the dict object found by lookup). -/
def updFirst {α β : Type} [DecidableEq α] (k : α) (f : β → β) : List (α × β) → List (α × β)
  | [] => []
  | (k', v) :: rest => if k' = k then (k', f v) :: rest else (k', v) :: updFirst k f rest

/-- Python `del d[k]` (plus no-op when absent; the source only deletes
present keys). -/
def dremove {α β : Type} [DecidableEq α] (k : α) (l : List (α × β)) : List (α × β) :=
  l.filter (fun p => decide (p.1 ≠ k))

/-- The output type of `RegistryParser.parse_line`: a group marker, a
subgroup marker, a parsed emoji declaration, or nothing (blank/comment
line).  Data lines are represented by the `Emoji` the declaration regex
and `Emoji.of` produce; the lexical layer (`EMOJI_DECLARATION`) itself is
a thin regex elided from the model. -/
inductive PItem where
  | emoji (e : Emoji)
  | group (name : List Nat)
  | subgroup (name : List Nat)
  | blank
deriving DecidableEq

/-- The `# group: X` branch of `parse_line`: the payload is normalized
with `to_group`. -/
def groupLine (raw : List Nat) : PItem := PItem.group (to_group raw)

/-- The `# subgroup: Y` branch of `parse_line`. -/
def subgroupLine (raw : List Nat) : PItem := PItem.subgroup (to_subgroup raw)

/-- A data line: `Emoji.of` on the captured fields. -/
def emojiLine (rawName cps : List Nat) (st : Status) (ver : List Nat) : PItem :=
  PItem.emoji (Emoji.of rawName cps (some st) (some ver))

/-- The distinct `self.error(...)` call sites of `RegistryParser`; the
interpolated message text is abstracted to a tag. -/
inductive ParseErrKind where
  | emojiWithoutSubgroup
  | duplicateCodepoints
  | duplicateComponentName
  | duplicateFullyQualifiedName
  | nonComponentInComponentGroup
  | componentOutsideComponentGroup
  | subgroupWithoutGroup
  | noFullyQualified
deriving DecidableEq

/-- `RegistryParser.error` raises `ValueError(f'path:lineno: msg')`: the
error carries the current line number and the message. -/
structure ParseErr where
  lineno : Nat
  kind : ParseErrKind
deriving DecidableEq

/-- Subgroup dictionary: subgroup name to emoji sequence. -/
abbrev SubgroupDict := List (List Nat × List Emoji)

/-- Group dictionary: group name to subgroup dictionary. -/
abbrev GroupDict := List (List Nat × SubgroupDict)

/-- The mutable fields of `RegistryParser`.  Python's `_group` is an
alias of `_group_table[_group_name]` (it is `None` exactly when
`_group_name` is); the alias is realized by lookups here. -/
structure PState where
  lineno : Nat
  name_table : List (List Nat × Emoji)
  codepoint_table : List (List Nat × Emoji)
  group_table : GroupDict
  group_name : Option (List Nat)
  subgroup_name : Option (List Nat)
  subgroup : Option (List Emoji)
deriving DecidableEq

/-- `RegistryParser.__init__`: empty tables, no group or subgroup. -/
def initState : PState := ⟨0, [], [], [], none, none, none⟩

/-- `self._group`, the subgroup dict of the current group. -/
def curGroupDict (st : PState) : SubgroupDict :=
  match st.group_name with
  | some g => (alookup g st.group_table).getD []
  | none => []

/-- `RegistryParser.enter_group`: `setdefault` the group's dict and make
it current.  (Its `assert self._subgroup_name is None` always holds on
`run`'s call path, which flushes the subgroup first.) -/
def enterGroup (st : PState) (name : List Nat) : PState :=
  { st with
    group_name := some name
    group_table :=
      if (alookup name st.group_table).isSome then st.group_table
      else st.group_table ++ [(name, [])] }

/-- `RegistryParser.enter_subgroup`: fatal without a current group;
otherwise start from a copy of the group's existing sequence for that
subgroup name, or empty. -/
def enterSubgroup (st : PState) (name : List Nat) : Except ParseErr PState :=
  if st.group_name.isNone then Except.error ⟨st.lineno, ParseErrKind.subgroupWithoutGroup⟩
  else Except.ok { st with
    subgroup_name := some name
    subgroup := some ((alookup name (curGroupDict st)).getD []) }

/-- `RegistryParser.maybe_exit_subgroup`: flush the in-progress subgroup
sequence into the current group's dict.  (The `assert`s that a group and
subgroup list exist always hold on `run`'s call path; the fallthrough
case is unreachable.) -/
def maybeExitSubgroup (st : PState) : PState :=
  match st.subgroup_name with
  | none => st
  | some sn =>
    match st.group_name, st.subgroup with
    | some g, some sub =>
      { st with
        group_table := updFirst g (fun sgs => dinsert sn sub sgs) st.group_table
        subgroup_name := none
        subgroup := none }
    | _, _ => { st with subgroup_name := none, subgroup := none }

/-- `RegistryParser.add_emoji`, checks in source order: subgroup
presence, duplicate codepoints, duplicate component name, duplicate
fully-qualified name, non-component inside the component group,
component outside the component group; then record by codepoints, and
for component/fully-qualified emoji also by name and into the current
subgroup. -/
def addEmoji (st : PState) (e : Emoji) : Except ParseErr PState :=
  if st.subgroup_name.isNone then
    Except.error ⟨st.lineno, ParseErrKind.emojiWithoutSubgroup⟩
  else if (alookup e.codepoints st.codepoint_table).isSome then
    Except.error ⟨st.lineno, ParseErrKind.duplicateCodepoints⟩
  else if e.is_component && (alookup e.name st.name_table).isSome then
    Except.error ⟨st.lineno, ParseErrKind.duplicateComponentName⟩
  else if e.is_fully_qualified && (alookup e.name st.name_table).isSome then
    Except.error ⟨st.lineno, ParseErrKind.duplicateFullyQualifiedName⟩
  else if st.group_name = some (pystr "component") && !e.is_component then
    Except.error ⟨st.lineno, ParseErrKind.nonComponentInComponentGroup⟩
  else if e.is_component && !(st.group_name = some (pystr "component") : Bool) then
    Except.error ⟨st.lineno, ParseErrKind.componentOutsideComponentGroup⟩
  else
    let st1 := { st with codepoint_table := dinsert e.codepoints e st.codepoint_table }
    if e.is_component || e.is_fully_qualified then
      Except.ok { st1 with
        name_table := dinsert e.name e st1.name_table
        subgroup := some ((st1.subgroup.getD []) ++ [e]) }
    else Except.ok st1

/-- The body of `run`'s loop for one parsed line: data lines go to
`add_emoji`; group/subgroup markers first flush the in-progress
subgroup; blank and comment lines are skipped. -/
def processItem (st : PState) : PItem → Except ParseErr PState
  | PItem.blank => Except.ok st
  | PItem.emoji e => addEmoji st e
  | PItem.group g => Except.ok (enterGroup (maybeExitSubgroup st) g)
  | PItem.subgroup sg => enterSubgroup (maybeExitSubgroup st) sg

/-- `run`'s loop: `self._lineno += 1` before each line is handled. -/
def processLines : PState → List PItem → Except ParseErr PState
  | st, [] => Except.ok st
  | st, it :: rest => do
    let st' ← processItem { st with lineno := st.lineno + 1 } it
    processLines st' rest

/-- The repointing pass at the end of `run`: every codepoint-table entry
that is neither component nor fully qualified is replaced by the
name-table entry of the same name; a missing peer is fatal. -/
def repointTable (nt : List (List Nat × Emoji)) (lineno : Nat) :
    List (List Nat × Emoji) → Except ParseErr (List (List Nat × Emoji))
  | [] => Except.ok []
  | (k, e) :: rest =>
    if e.is_component || e.is_fully_qualified then do
      let rest' ← repointTable nt lineno rest
      Except.ok ((k, e) :: rest')
    else
      match alookup e.name nt with
      | none => Except.error ⟨lineno, ParseErrKind.noFullyQualified⟩
      | some f => do
        let rest' ← repointTable nt lineno rest
        Except.ok ((k, f) :: rest')

/-- `RegistryParser.run` over the parsed lines of the source file:
process every line, flush the final subgroup, repoint, and return the
three tables. -/
def runParser (items : List PItem) :
    Except ParseErr (List (List Nat × Emoji) × List (List Nat × Emoji) × GroupDict) := do
  let st ← processLines initState items
  let st := maybeExitSubgroup st
  let ct ← repointTable st.name_table st.lineno st.codepoint_table
  Except.ok (st.name_table, ct, st.group_table)

/-- The `'ALL'` branch of `Registry.select`: extend the selection with
every subgroup of every group, in table order. -/
def selectAll (gt : GroupDict) : List Emoji :=
  (gt.map (fun g => (g.2.map (fun sg => sg.2)).flatten)).flatten

/-- Does the item declare a component or fully-qualified emoji? -/
def isCompFqItem : PItem → Bool
  | PItem.emoji e => e.is_component || e.is_fully_qualified
  | _ => false

/-- The number of component plus fully-qualified declarations in a
source. -/
def countCompFq (items : List PItem) : Nat := (items.filter isCompFqItem).length

/-- One uppercase hexadecimal digit. -/
def hexDigit (d : Nat) : Nat := if d < 10 then 48 + d else 55 + d

/-- Significant hexadecimal digits of `n`, most significant first (empty
for 0); fuel-driven structural recursion, `n` itself is enough fuel. -/
def hexAux : Nat → Nat → List Nat
  | 0, _ => []
  | fuel + 1, n => if n = 0 then [] else hexAux fuel (n / 16) ++ [hexDigit (n % 16)]

/-- Python `f'{n:04X}'`: uppercase hexadecimal, zero-padded to at least
four digits. -/
def hex4 (n : Nat) : List Nat :=
  let ds := hexAux n n
  List.replicate (4 - ds.length) 48 ++ ds

/-- Property `Emoji.latex_chars`: the codepoints in LaTeX
backslash-char notation. -/
def latex_chars (cps : List Nat) : List Nat :=
  (cps.map (fun cp => pystr "\\char\"" ++ hex4 cp)).flatten

/-- `LatexCommand.define`: one DefineEmoji invocation. -/
def latexDefine (name cps : List Nat) : List Nat :=
  pystr "\\DefineEmoji\x7b" ++ name ++ pystr "\x7d\x7b" ++ cps ++ pystr "\x7d"

/-- Property `Emoji.latex_table_entry` from `config/emo.py`: a
DefineEmoji line whose second argument is the display string, except for
keycap-hash which uses the char-escaped codepoints. -/
def latex_table_entry (e : Emoji) : List Nat :=
  latexDefine e.name
    (if e.name = pystr "keycap-hash" then latex_chars e.codepoints else e.display)

/-- Property `Emoji.latex_table_entry` from the prototype
`scripts/emo.py`: compound names use the expandafter/csname idiom,
single-word names plain def; the body is the display string. -/
def scriptsLatexEntry (e : Emoji) : List Nat :=
  (if e.has_compound_name then
    pystr "\\expandafter\\def\\csname emo@emoji@" ++ e.name ++ pystr "\\endcsname"
  else
    pystr "\\def\\emo@emoji@" ++ e.name) ++ pystr "\x7b" ++ e.display ++ pystr "\x7d"

/-- `Emoji.to_latex_table_entry` from the prototype `emo.py`: same two
idioms, but the body is always the char-escaped codepoints. -/
def protoLatexEntry (e : Emoji) : List Nat :=
  (if e.has_compound_name then
    pystr "\\expandafter\\def\\csname emo@emoji@" ++ e.name ++ pystr "\\endcsname"
  else
    pystr "\\def\\emo@emoji@" ++ e.name) ++ pystr "\x7b" ++ latex_chars e.codepoints ++ pystr "\x7d"

/-- JSON values as produced by `json.load` on qpdf's output: strings,
arrays, and objects.  (Numbers, booleans and null never flow through the
patcher's checks and are omitted.) -/
inductive JVal where
  | s (v : List Nat)
  | arr (vs : List JVal)
  | dict (entries : List (List Nat × JVal))

/-- The object map `document['qpdf'][1]` of qpdf's JSON format: object
identifiers (plus `trailer`) to wrapper objects.  The patcher operates
entirely on this mapping; the two fixed accesses peeling it out of the
document are elided glue. -/
abbrev Objects := List (List Nat × JVal)

/-- The error classes the patcher can raise, one per `raise` site
(message text abstracted): `KeyError` from `resolve`, the two
`ValueError`s of `resolve_value`, the page-count `ValueError`, the
`IndexError` from `pages[0]` on an empty list, and the `TypeError` /
`AttributeError` Python raises when subscripting or `.get`-ing a
non-dict. -/
inductive PdfErr where
  | keyError (ref : List Nat)
  | refNotString
  | noValue (ref : List Nat)
  | typeMismatch (ref : List Nat)
  | pageCount (n : Nat)
  | indexError
  | typeError
  | attributeError
deriving DecidableEq

/-- The key under which `resolve` looks a reference up:
`ref if ref == 'trailer' else f'obj:{ref}'`. -/
def refKey (ref : List Nat) : List Nat :=
  if ref = pystr "trailer" then ref else pystr "obj:" ++ ref

/-- `resolve` from `remove_page_group_object`. -/
def resolveObj (objects : Objects) (ref : List Nat) : Except PdfErr JVal :=
  match alookup (refKey ref) objects with
  | some o => Except.ok o
  | none => Except.error (PdfErr.keyError ref)

/-- Python `'value' in o`: key membership for dicts, element membership
for lists (only string elements can equal the string `value`), substring
test for strings. -/
def pyContains (o : JVal) (k : List Nat) : Bool :=
  match o with
  | JVal.dict d => (alookup k d).isSome
  | JVal.arr xs => xs.any (fun x => match x with | JVal.s v => v = k | _ => false)
  | JVal.s v => containsSeq k v

/-- Python `o[k]` for a string key: dict lookup (`KeyError` when
missing), `TypeError` on non-dicts. -/
def pySubscript (o : JVal) (k : List Nat) : Except PdfErr JVal :=
  match o with
  | JVal.dict d =>
    match alookup k d with
    | some v => Except.ok v
    | none => Except.error (PdfErr.keyError k)
  | _ => Except.error PdfErr.typeError

/-- Python `v.get(k)`: only dicts have `.get` (`AttributeError`
otherwise). -/
def pyGet (v : JVal) (k : List Nat) : Except PdfErr (Option JVal) :=
  match v with
  | JVal.dict d => Except.ok (alookup k d)
  | _ => Except.error PdfErr.attributeError

/-- References flowing into `resolve` must be strings; a non-string
would be stringified by the f-string and (in any actual graph) miss the
table — modelled as a distinct error. -/
def asRefString (v : JVal) : Except PdfErr (List Nat) :=
  match v with
  | JVal.s r => Except.ok r
  | _ => Except.error PdfErr.refNotString

/-- The `type is not None and v.get('/Type') != type` guard of
`resolve_value`: no demanded type passes `v` through; otherwise `v`'s
`/Type` entry must be the demanded string. -/
def typeCheck (ref : List Nat) (ty : Option (List Nat)) (v : JVal) : Except PdfErr JVal :=
  match ty with
  | none => Except.ok v
  | some t => do
    let tv ← pyGet v (pystr "/Type")
    match tv with
    | some (JVal.s t') => if t' = t then Except.ok v else Except.error (PdfErr.typeMismatch ref)
    | _ => Except.error (PdfErr.typeMismatch ref)

/-- `resolve_value` from `remove_page_group_object`: resolve the
reference, require a `value` field, and when a type is demanded compare
the value's `/Type` entry against it. -/
def resolveValue (objects : Objects) (ref : List Nat) (ty : Option (List Nat)) :
    Except PdfErr JVal := do
  let o ← resolveObj objects ref
  if pyContains o (pystr "value") then do
    let v ← pySubscript o (pystr "value")
    typeCheck ref ty v
  else Except.error (PdfErr.noValue ref)

/-- Steps 1 and 2 of the patch and the `['/Kids']` access: trailer,
catalog, pages object, kids list. -/
def resolveKidsList (objects : Objects) : Except PdfErr (List JVal) := do
  let trailer ← resolveValue objects (pystr "trailer") none
  let rootRef ← pySubscript trailer (pystr "/Root")
  let rootRefS ← asRefString rootRef
  let root ← resolveValue objects rootRefS (some (pystr "/Catalog"))
  let pagesRef ← pySubscript root (pystr "/Pages")
  let pagesRefS ← asRefString pagesRef
  let pagesV ← resolveValue objects pagesRefS (some (pystr "/Pages"))
  let kidsV ← pySubscript pagesV (pystr "/Kids")
  match kidsV with
  | JVal.arr xs => Except.ok xs
  | _ => Except.error PdfErr.typeError

/-- Steps 3 and 4: the page-count guard (`len(pages) > 1` is fatal),
then resolve `pages[0]` as a Page; returns the kid reference together
with the page dict's entries. -/
def resolvePage (objects : Objects) :
    Except PdfErr (List Nat × List (List Nat × JVal)) := do
  let kids ← resolveKidsList objects
  if kids.length > 1 then Except.error (PdfErr.pageCount kids.length)
  else
    match kids with
    | [] => Except.error PdfErr.indexError
    | kid :: _ => do
      let kidS ← asRefString kid
      let page ← resolveValue objects kidS (some (pystr "/Page"))
      match page with
      | JVal.dict pd => Except.ok (kidS, pd)
      | _ => Except.error PdfErr.typeError

/-- The in-place `del page['/Group']` as a tree update: replace the
`value` of the wrapper at the page's key with the page dict minus
`/Group`. -/
def mutatePage (objects : Objects) (kidRef : List Nat)
    (pd : List (List Nat × JVal)) : Objects :=
  updFirst (refKey kidRef)
    (fun w =>
      match w with
      | JVal.dict entries =>
        JVal.dict (dinsert (pystr "value") (JVal.dict (dremove (pystr "/Group") pd)) entries)
      | o => o)
    objects

/-- `remove_page_group_object` from `config/emo.py` (also `degroup` in
`scripts/fix-page-groups.py` and the prototypes): resolve down to the
single page; if it has a `/Group` key delete it and return the changed
document (`changed = true`), otherwise return `none`
(Python `None`, reported as `changed = false`). -/
def remove_page_group_object (objects : Objects) : Except PdfErr (Option Objects) := do
  let kp ← resolvePage objects
  if (alookup (pystr "/Group") kp.2).isSome then
    Except.ok (some (mutatePage objects kp.1 kp.2))
  else Except.ok none

/-- The tuple of compare-enabled fields of the `Emoji` dataclass
(`order=True`): only `codepoints`; `name`, `display`, `status` and
`version` carry `compare=False`. -/
def dataclassKey (e : Emoji) : List Nat := e.codepoints

/-- Dataclass `__eq__`: equality of the compare-field tuples. -/
def emojiEqPy (a b : Emoji) : Bool := dataclassKey a = dataclassKey b

/-- Python `<` on int tuples: lexicographic, a strict prefix is
smaller. -/
def pyListLt : List Nat → List Nat → Bool
  | [], [] => false
  | [], _ :: _ => true
  | _ :: _, [] => false
  | a :: xs, b :: ys => if a < b then true else if a = b then pyListLt xs ys else false

/-- Dataclass `__lt__` (`order=True`): Python `<` of the compare-field
tuples. -/
def emojiLtPy (a b : Emoji) : Bool := pyListLt (dataclassKey a) (dataclassKey b)

/-- `__hash__` as in `scripts/emo.py` (`hash(self._codepoints)`; the
dataclass hash of `config/emo.py` equally hashes the compare-field
tuple): the built-in tuple hash, abstracted as a parameter, applied to
the codepoints only. -/
def emojiHashWith (h : List Nat → Nat) (e : Emoji) : Nat := h e.codepoints

/-- The three tables `run` returns. -/
abbrev RegTables := List (List Nat × Emoji) × List (List Nat × Emoji) × GroupDict

/-- The group table as it would stand after flushing the in-progress
subgroup: the contents the tables denote mid-parse. -/
def flushView (st : PState) : GroupDict := (maybeExitSubgroup st).group_table

/-- Number of emoji recorded in a subgroup dict. -/
def subTotal (sgs : SubgroupDict) : Nat := (sgs.map (fun sg => sg.2.length)).sum

/-- Number of emoji recorded in a group table. -/
def totalCount (gt : GroupDict) : Nat := (gt.map (fun g => subTotal g.2)).sum

/-- The emoji occurs in some subgroup of group `g` of the table. -/
def inGroup (gt : GroupDict) (g : List Nat) (e : Emoji) : Prop :=
  ∃ sgs, (g, sgs) ∈ gt ∧ ∃ p, p ∈ sgs ∧ e ∈ p.2

/-- Status of the codepoint-table entry at `k` of a parse result
(`none` when the parse failed or the key is absent). -/
def ctStatusAt (r : Except ParseErr RegTables) (k : List Nat) : Option (Option Status) :=
  match r with
  | Except.ok t => (alookup k t.2.1).map (fun e => e.status)
  | Except.error _ => none

/-- A source whose fourth line declares a group while the subgroup
`face-smiling` is still in progress. -/
def exMidSubgroupSource : List PItem := [
  groupLine (pystr "Smileys & Emotion"),
  subgroupLine (pystr "face-smiling"),
  emojiLine (pystr "grinning face") [0x1F600] Status.fully_qualified (pystr "1.0"),
  groupLine (pystr "Component")]

/-- A parser state in the middle of subgroup `y` of group `x`. -/
def exMidSubgroupState : PState :=
  ⟨3, [], [], [(pystr "x", [])], some (pystr "x"), some (pystr "y"), some []⟩

/-- A source declaring a component `alpha` and later a
minimally-qualified entry that reuses the name `alpha`; no
fully-qualified entry of that name exists. -/
def exComponentPeerSource : List PItem := [
  groupLine (pystr "Component"),
  subgroupLine (pystr "skin tones"),
  emojiLine (pystr "alpha") [1] Status.component (pystr "1.0"),
  groupLine (pystr "Symbols"),
  subgroupLine (pystr "misc"),
  emojiLine (pystr "alpha") [2] Status.minimally_qualified (pystr "1.0")]

/-- A source whose last line is minimally qualified and reuses the name
of the previously registered component `beta`. -/
def exNameReuseSource : List PItem := [
  groupLine (pystr "Component"),
  subgroupLine (pystr "skin tones"),
  emojiLine (pystr "beta") [3] Status.component (pystr "2.0"),
  emojiLine (pystr "beta gamma") [4] Status.component (pystr "2.0"),
  groupLine (pystr "Flags"),
  subgroupLine (pystr "flag"),
  emojiLine (pystr "beta") [5] Status.unqualified (pystr "2.0")]

/-- A two-group source for the `ALL` selector count. -/
def exSelectSource : List PItem := [
  groupLine (pystr "Smileys & Emotion"),
  subgroupLine (pystr "face-smiling"),
  emojiLine (pystr "grinning face") [0x1F600] Status.fully_qualified (pystr "1.0"),
  emojiLine (pystr "grinning face with big eyes") [0x1F603] Status.fully_qualified (pystr "0.6"),
  PItem.blank,
  groupLine (pystr "Component"),
  subgroupLine (pystr "skin-tone"),
  emojiLine (pystr "light skin tone") [0x1F3FB] Status.component (pystr "1.0"),
  groupLine (pystr "Flags"),
  subgroupLine (pystr "flag"),
  emojiLine (pystr "chequered flag") [0x1F3C1, 0xFE0F] Status.unqualified (pystr "0.6"),
  emojiLine (pystr "chequered flag") [0x1F3C1] Status.fully_qualified (pystr "0.6")]

/-- A fully-qualified emoji with a compound (hyphenated) name. -/
def exCompoundEmoji : Emoji :=
  Emoji.of (pystr "grinning face") [0x1F600] (some Status.fully_qualified) (some (pystr "1.0"))

/-- A fully-qualified emoji with a single-word name. -/
def exSimpleEmoji : Emoji :=
  Emoji.of (pystr "parrot") [0x1F99C] (some Status.fully_qualified) (some (pystr "11.0"))

/-- A one-page document graph whose page carries a `/Group` object. -/
def exDocWithGroup : Objects := [
  (pystr "trailer", JVal.dict [(pystr "value",
    JVal.dict [(pystr "/Root", JVal.s (pystr "1 0 R"))])]),
  (pystr "obj:1 0 R", JVal.dict [(pystr "value",
    JVal.dict [(pystr "/Type", JVal.s (pystr "/Catalog")),
               (pystr "/Pages", JVal.s (pystr "2 0 R"))])]),
  (pystr "obj:2 0 R", JVal.dict [(pystr "value",
    JVal.dict [(pystr "/Type", JVal.s (pystr "/Pages")),
               (pystr "/Kids", JVal.arr [JVal.s (pystr "3 0 R")])])]),
  (pystr "obj:3 0 R", JVal.dict [(pystr "value",
    JVal.dict [(pystr "/Type", JVal.s (pystr "/Page")),
               (pystr "/Group", JVal.dict [])])])]

/-- `exDocWithGroup` after the patch: identical except that the page
object lost its `/Group` key. -/
def exDocPatched : Objects := [
  (pystr "trailer", JVal.dict [(pystr "value",
    JVal.dict [(pystr "/Root", JVal.s (pystr "1 0 R"))])]),
  (pystr "obj:1 0 R", JVal.dict [(pystr "value",
    JVal.dict [(pystr "/Type", JVal.s (pystr "/Catalog")),
               (pystr "/Pages", JVal.s (pystr "2 0 R"))])]),
  (pystr "obj:2 0 R", JVal.dict [(pystr "value",
    JVal.dict [(pystr "/Type", JVal.s (pystr "/Pages")),
               (pystr "/Kids", JVal.arr [JVal.s (pystr "3 0 R")])])]),
  (pystr "obj:3 0 R", JVal.dict [(pystr "value",
    JVal.dict [(pystr "/Type", JVal.s (pystr "/Page"))])])]

/-- A document graph whose `/Kids` list is empty. -/
def exDocNoKids : Objects := [
  (pystr "trailer", JVal.dict [(pystr "value",
    JVal.dict [(pystr "/Root", JVal.s (pystr "1 0 R"))])]),
  (pystr "obj:1 0 R", JVal.dict [(pystr "value",
    JVal.dict [(pystr "/Type", JVal.s (pystr "/Catalog")),
               (pystr "/Pages", JVal.s (pystr "2 0 R"))])]),
  (pystr "obj:2 0 R", JVal.dict [(pystr "value",
    JVal.dict [(pystr "/Type", JVal.s (pystr "/Pages")),
               (pystr "/Kids", JVal.arr [])])])]

/-- A document graph whose `/Kids` list has two entries. -/
def exDocTwoKids : Objects := [
  (pystr "trailer", JVal.dict [(pystr "value",
    JVal.dict [(pystr "/Root", JVal.s (pystr "1 0 R"))])]),
  (pystr "obj:1 0 R", JVal.dict [(pystr "value",
    JVal.dict [(pystr "/Type", JVal.s (pystr "/Catalog")),
               (pystr "/Pages", JVal.s (pystr "2 0 R"))])]),
  (pystr "obj:2 0 R", JVal.dict [(pystr "value",
    JVal.dict [(pystr "/Type", JVal.s (pystr "/Pages")),
               (pystr "/Kids", JVal.arr [JVal.s (pystr "3 0 R"), JVal.s (pystr "4 0 R")])])]),
  (pystr "obj:3 0 R", JVal.dict [(pystr "value",
    JVal.dict [(pystr "/Type", JVal.s (pystr "/Page"))])]),
  (pystr "obj:4 0 R", JVal.dict [(pystr "value",
    JVal.dict [(pystr "/Type", JVal.s (pystr "/Page"))])])]

/-- The left component of a parse result (empty tables on error); lets
concrete registries appear in closed statements. -/
def regNtOf (r : Except ParseErr RegTables) : List (List Nat × Emoji) :=
  match r with
  | Except.ok t => t.1
  | Except.error _ => []

/-- The codepoint table of a parse result. -/
def regCtOf (r : Except ParseErr RegTables) : List (List Nat × Emoji) :=
  match r with
  | Except.ok t => t.2.1
  | Except.error _ => []

/-- The group table of a parse result. -/
def regGtOf (r : Except ParseErr RegTables) : GroupDict :=
  match r with
  | Except.ok t => t.2.2
  | Except.error _ => []



/-- The name table holds exactly name-keyed component/fully-qualified
entries. -/
def NtInv (nt : List (List Nat × Emoji)) : Prop :=
  ∀ p : List Nat × Emoji, p ∈ nt →
    p.1 = p.2.name ∧ (p.2.is_component = true ∨ p.2.is_fully_qualified = true)

/-- Well-formedness of the parser state maintained by `run`'s loop:
the subgroup fields are coherent, the current group exists in the group
table, and the group table's slot for the current subgroup is a subset
of the in-progress subgroup list (which started as a copy of it). -/
def WfState (st : PState) : Prop :=
  (st.subgroup_name = none → st.subgroup = none) ∧
  (∀ sn, st.subgroup_name = some sn →
    (∃ l, st.subgroup = some l) ∧ ∃ g, st.group_name = some g) ∧
  (∀ g, st.group_name = some g → ∃ sgs, alookup g st.group_table = some sgs) ∧
  (∀ sn g l, st.subgroup_name = some sn → st.group_name = some g →
    st.subgroup = some l →
    ∀ v, alookup sn ((alookup g st.group_table).getD []) = some v →
      ∀ x, x ∈ v → x ∈ l)

/-- The component-group invariant maintained while parsing: group-table
entries carry component emoji exactly in the group named `component`,
likewise the in-progress subgroup against the current group, and every
component entry of the name/codepoint tables occurs in the component
group of the flushed table view. -/
def CompInv (st : PState) : Prop :=
  (∀ gp : List Nat × SubgroupDict, gp ∈ st.group_table →
    ∀ sp : List Nat × List Emoji, sp ∈ gp.2 → ∀ e : Emoji, e ∈ sp.2 →
      (e.is_component = true ↔ gp.1 = pystr "component")) ∧
  (∀ l, st.subgroup = some l → ∀ e : Emoji, e ∈ l →
    (e.is_component = true ↔ st.group_name = some (pystr "component"))) ∧
  (∀ p : List Nat × Emoji, p ∈ st.name_table → p.2.is_component = true →
    inGroup (flushView st) (pystr "component") p.2) ∧
  (∀ p : List Nat × Emoji, p ∈ st.codepoint_table → p.2.is_component = true →
    inGroup (flushView st) (pystr "component") p.2)

/-- A mid-subgroup parser state whose current group is not the component
group. -/
def exC5OutState : PState :=
  ⟨5, [], [], [(pystr "symbols", [])], some (pystr "symbols"), some (pystr "misc"),
    some []⟩

/-- A mid-subgroup parser state inside the component group. -/
def exC5InState : PState :=
  ⟨7, [], [], [(pystr "component", [])], some (pystr "component"),
    some (pystr "skin-tones"), some []⟩

/-- The component emoji that `exComponentPeerSource` declares. -/
def exAlphaComponent : Emoji :=
  Emoji.of (pystr "alpha") [1] (some Status.component) (some (pystr "1.0"))

/-- A fully-qualified emoji used against the component group. -/
def exBravoFq : Emoji :=
  Emoji.of (pystr "bravo") [2] (some Status.fully_qualified) (some (pystr "1.0"))

/-- Does the string start with a separator character? -/
def headSep : List Nat → Bool
  | [] => false
  | c :: _ => isSepCp c

/-- No two adjacent separator characters anywhere in the string. -/
def noAdjSep : List Nat → Bool
  | [] => true
  | c :: rest => !(isSepCp c && headSep rest) && noAdjSep rest

/-- A character `to_name` can emit: fixed under lower-casing, not
punctuation, not a space or underscore (hyphens are allowed). -/
def goodCh (c : Nat) : Bool :=
  (lowerCp c == c) && !(punctCps.contains c) && !(c == 32) && !(c == 95)

theorem ok_bind {ε α β : Type} (a : α) (f : α → Except ε β) :
    (Except.ok a >>= f) = f a := rfl

theorem error_bind {ε α β : Type} (e : ε) (f : α → Except ε β) :
    ((Except.error e : Except ε α) >>= f) = Except.error e := rfl

theorem bind_eq_ok {ε α β : Type} (x : Except ε α) (f : α → Except ε β) (b : β) :
    x >>= f = Except.ok b ↔ ∃ a, x = Except.ok a ∧ f a = Except.ok b := by
  cases x <;> simp [ok_bind, error_bind]

theorem alookup_mem {α β : Type} [DecidableEq α] {k : α} {v : β} :
    ∀ {l : List (α × β)}, alookup k l = some v → (k, v) ∈ l := by
  intro l
  induction l with
  | nil => intro h; simp [alookup] at h
  | cons p rest ih =>
    intro h
    by_cases hk : k = p.1
    · simp [alookup, hk] at h
      subst h
      rw [hk]
      exact List.mem_cons_self _ _
    · rw [show p = (p.1, p.2) from rfl, alookup, if_neg hk] at h
      exact List.mem_cons_of_mem _ (ih h)

theorem alookup_append_left {α β : Type} [DecidableEq α] {k : α} {v : β}
    {l : List (α × β)} (l' : List (α × β)) (h : alookup k l = some v) :
    alookup k (l ++ l') = some v := by
  induction l with
  | nil => simp [alookup] at h
  | cons p rest ih =>
    by_cases hk : k = p.1
    · rw [show p = (p.1, p.2) from rfl] at h ⊢
      rw [alookup, if_pos hk] at h
      simp [alookup, hk, h]
    · rw [show p = (p.1, p.2) from rfl] at h ⊢
      rw [alookup, if_neg hk] at h
      simpa [alookup, hk] using ih h

theorem alookup_dinsert_self {α β : Type} [DecidableEq α] (k : α) (v : β)
    (l : List (α × β)) : alookup k (dinsert k v l) = some v := by
  induction l with
  | nil => simp [dinsert, alookup]
  | cons p rest ih =>
    by_cases hk : p.1 = k
    · rw [show p = (p.1, p.2) from rfl, dinsert, if_pos hk]
      simp [alookup]
    · rw [show p = (p.1, p.2) from rfl, dinsert, if_neg hk]
      have hk' : ¬ k = p.1 := fun h => hk h.symm
      simp [alookup, hk', ih]

theorem alookup_dinsert_ne {α β : Type} [DecidableEq α] {k k' : α} (v : β)
    (l : List (α × β)) (h : k' ≠ k) : alookup k' (dinsert k v l) = alookup k' l := by
  induction l with
  | nil => simp [dinsert, alookup, h]
  | cons p rest ih =>
    by_cases hk : p.1 = k
    · rw [show p = (p.1, p.2) from rfl, dinsert, if_pos hk]
      have hk2 : ¬ k' = p.1 := fun hh => h (hh.trans hk)
      simp [alookup, h, hk2]
    · rw [show p = (p.1, p.2) from rfl, dinsert, if_neg hk]
      by_cases hk2 : k' = p.1
      · simp [alookup, hk2]
      · simp [alookup, hk2, ih]

theorem alookup_updFirst_self {α β : Type} [DecidableEq α] {k : α} {v : β}
    (f : β → β) {l : List (α × β)} (h : alookup k l = some v) :
    alookup k (updFirst k f l) = some (f v) := by
  induction l with
  | nil => simp [alookup] at h
  | cons p rest ih =>
    by_cases hk : p.1 = k
    · rw [show p = (p.1, p.2) from rfl] at h ⊢
      rw [alookup, if_pos hk.symm] at h
      rw [updFirst, if_pos hk]
      rw [Option.some.injEq] at h
      simp [alookup, hk.symm, h]
    · rw [show p = (p.1, p.2) from rfl] at h ⊢
      have hk' : ¬ k = p.1 := fun hh => hk hh.symm
      rw [alookup, if_neg hk'] at h
      rw [updFirst, if_neg hk]
      simp [alookup, hk', ih h]

theorem alookup_updFirst_ne {α β : Type} [DecidableEq α] {k k' : α}
    (f : β → β) (l : List (α × β)) (h : k' ≠ k) :
    alookup k' (updFirst k f l) = alookup k' l := by
  induction l with
  | nil => simp [updFirst]
  | cons p rest ih =>
    by_cases hk : p.1 = k
    · rw [show p = (p.1, p.2) from rfl, updFirst, if_pos hk]
      have hk2 : ¬ k' = p.1 := fun hh => h (hh.trans hk)
      simp [alookup, hk2]
    · rw [show p = (p.1, p.2) from rfl, updFirst, if_neg hk]
      by_cases hk2 : k' = p.1
      · simp [alookup, hk2]
      · simp [alookup, hk2, ih]

theorem alookup_dremove_self {α β : Type} [DecidableEq α] (k : α)
    (l : List (α × β)) : alookup k (dremove k l) = none := by
  induction l with
  | nil => simp [dremove, alookup]
  | cons p rest ih =>
    by_cases hk : p.1 = k
    · simpa [dremove, List.filter, hk] using ih
    · rw [show p = (p.1, p.2) from rfl]
      have hk' : ¬ k = p.1 := fun hh => hk hh.symm
      simpa [dremove, List.filter, hk, alookup, hk'] using ih

theorem alookup_dremove_ne {α β : Type} [DecidableEq α] {k k' : α}
    (l : List (α × β)) (h : k' ≠ k) :
    alookup k' (dremove k l) = alookup k' l := by
  induction l with
  | nil => simp [dremove, alookup]
  | cons p rest ih =>
    by_cases hk : p.1 = k
    · have hk2 : ¬ k' = p.1 := fun hh => h (hh.trans hk)
      simpa [dremove, List.filter, hk, alookup, hk2, h] using ih
    · rw [show p = (p.1, p.2) from rfl]
      by_cases hk2 : k' = p.1
      · simp [dremove, List.filter, hk, alookup, hk2]
      · simpa [dremove, List.filter, hk, alookup, hk2] using ih

/-- C2: amended.  Once the patcher has resolved the `/Kids` list, a
length greater than one raises the fatal cardinality `ValueError`
(`PDF has N pages instead of just one`); a length of zero does not reach
that check's error — `pages[0]` raises an `IndexError` instead; the
single kid is resolved only when the list has exactly one entry. -/
theorem c2_kids_cardinality : ∀ (objects : Objects) (kids : List JVal),
    resolveKidsList objects = Except.ok kids →
    (1 < kids.length →
      remove_page_group_object objects = Except.error (PdfErr.pageCount kids.length)) ∧
    (kids.length = 0 →
      remove_page_group_object objects = Except.error PdfErr.indexError) := by
  intro objects kids h
  refine ⟨fun hl => ?_, fun hl => ?_⟩
  · simp only [remove_page_group_object, resolvePage, h, ok_bind]
    rw [if_pos hl]
    rfl
  · have hk : kids = [] := List.length_eq_zero.mp hl
    subst hk
    simp only [remove_page_group_object, resolvePage, h, ok_bind]
    rfl

/-- C2 witness: on a concrete two-kid document the patcher raises the
page-count error. -/
theorem c2_kids_cardinality_witness :
    remove_page_group_object exDocTwoKids = Except.error (PdfErr.pageCount 2) :=
  (c2_kids_cardinality exDocTwoKids [JVal.s (pystr "3 0 R"), JVal.s (pystr "4 0 R")]
    (by rfl)).1 (by decide)

/-- C2 counterexample: on a concrete document with an empty `/Kids`
list the patcher raises `IndexError`, not the cardinality error the
claim asserts for a count of zero. -/
theorem c2_zero_kids_cex :
    remove_page_group_object exDocNoKids = Except.error PdfErr.indexError ∧
    PdfErr.indexError ≠ PdfErr.pageCount 0 :=
  ⟨by rfl, by decide⟩

/-- C8: amended.  The shipping emitter (`config/emo.py`, used on every
selected emoji by `write_latex_table`) produces one fixed idiom for
every emoji — a DefineEmoji line whose body is the display string
(char-escaped codepoints only for `keycap-hash`) — regardless of
whether the name is compound.  The two-idiom grammar the claim
describes (expandafter/csname for compound names, plain def otherwise)
exists only in the prototype emitter of `scripts/emo.py`. -/
theorem c8_entry_shape : ∀ e : Emoji,
    List.isPrefixOf (pystr "\\DefineEmoji\x7b") (latex_table_entry e) = true ∧
    (e.name ≠ pystr "keycap-hash" → latex_table_entry e = latexDefine e.name e.display) ∧
    (e.has_compound_name = true →
      scriptsLatexEntry e =
        pystr "\\expandafter\\def\\csname emo@emoji@" ++ e.name ++ pystr "\\endcsname" ++
          (pystr "\x7b" ++ e.display ++ pystr "\x7d")) ∧
    (e.has_compound_name = false →
      scriptsLatexEntry e =
        pystr "\\def\\emo@emoji@" ++ e.name ++ (pystr "\x7b" ++ e.display ++ pystr "\x7d")) := by
  intro e
  refine ⟨?_, fun h => ?_, fun h => ?_, fun h => ?_⟩
  · have hrw : latex_table_entry e = pystr "\\DefineEmoji\x7b" ++
        (e.name ++ (pystr "\x7d\x7b" ++
          ((if e.name = pystr "keycap-hash" then latex_chars e.codepoints else e.display) ++
            pystr "\x7d"))) := by
      simp [latex_table_entry, latexDefine]
    rw [hrw]
    exact List.isPrefixOf_iff_prefix.mpr (List.prefix_append _ _)
  · simp [latex_table_entry, h]
  · simp [scriptsLatexEntry, h, List.append_assoc]
  · simp [scriptsLatexEntry, h, List.append_assoc]

/-- C8 witness: the theorem applied to a concrete compound-name emoji
and a concrete single-word emoji. -/
theorem c8_entry_shape_witness :
    latex_table_entry exCompoundEmoji = latexDefine exCompoundEmoji.name exCompoundEmoji.display ∧
    scriptsLatexEntry exCompoundEmoji =
      pystr "\\expandafter\\def\\csname emo@emoji@" ++ exCompoundEmoji.name ++
        pystr "\\endcsname" ++ (pystr "\x7b" ++ exCompoundEmoji.display ++ pystr "\x7d") ∧
    scriptsLatexEntry exSimpleEmoji =
      pystr "\\def\\emo@emoji@" ++ exSimpleEmoji.name ++
        (pystr "\x7b" ++ exSimpleEmoji.display ++ pystr "\x7d") :=
  ⟨(c8_entry_shape exCompoundEmoji).2.1 (by decide),
   (c8_entry_shape exCompoundEmoji).2.2.1 (by decide),
   (c8_entry_shape exSimpleEmoji).2.2.2 (by decide)⟩

/-- C8 counterexample: `grinning-face` has a compound name, yet the
emitted definition line does not use the compound idiom — it is the
single DefineEmoji idiom, exactly as for the single-word `parrot`. -/
theorem c8_compound_entry_cex :
    exCompoundEmoji.has_compound_name = true ∧
    List.isPrefixOf (pystr "\\expandafter") (latex_table_entry exCompoundEmoji) = false ∧
    List.isPrefixOf (pystr "\\DefineEmoji") (latex_table_entry exCompoundEmoji) = true ∧
    List.isPrefixOf (pystr "\\DefineEmoji") (latex_table_entry exSimpleEmoji) = true := by
  decide

theorem pyListLt_iff_lex : ∀ xs ys : List Nat,
    pyListLt xs ys = true ↔ List.Lex (· < ·) xs ys := by
  intro xs
  induction xs with
  | nil =>
    intro ys
    cases ys with
    | nil =>
      simp only [pyListLt]
      constructor
      · intro h; cases h
      · intro h; cases h
    | cons b bs =>
      simp only [pyListLt]
      exact ⟨fun _ => List.Lex.nil, fun _ => trivial⟩
  | cons a xs ih =>
    intro ys
    cases ys with
    | nil =>
      simp only [pyListLt]
      constructor
      · intro h; cases h
      · intro h; cases h
    | cons b bs =>
      simp only [pyListLt]
      by_cases hab : a < b
      · simp only [if_pos hab]
        exact ⟨fun _ => List.Lex.rel hab, fun _ => trivial⟩
      · rw [if_neg hab]
        by_cases heq : a = b
        · subst heq
          rw [if_pos rfl]
          constructor
          · intro h; exact List.Lex.cons ((ih bs).mp h)
          · intro h
            cases h with
            | cons h' => exact (ih bs).mpr h'
            | rel h' => exact absurd h' hab
        · rw [if_neg heq]
          constructor
          · intro h; cases h
          · intro h
            cases h with
            | cons h' => exact absurd rfl heq
            | rel h' => exact absurd h' hab

/-- C10: confirmed.  Dataclass equality and ordering of `Emoji` compare
only the tuple of compare-enabled fields, which is just `codepoints`
(`name`, `display`, `status`, `version` carry `compare=False`); the hash
is the built-in hash of that same tuple.  So two emoji are equal exactly
when their codepoint tuples are, regardless of all other fields; the
order is the lexicographic order on codepoint tuples; and equal
codepoints force equal hashes for any hash function. -/
theorem c10_emoji_compare :
    (∀ a b : Emoji, emojiEqPy a b = true ↔ a.codepoints = b.codepoints) ∧
    (∀ n1 n2 c s1 s2 v1 v2,
      emojiEqPy (Emoji.mk n1 c s1 v1) (Emoji.mk n2 c s2 v2) = true) ∧
    (∀ a b : Emoji, emojiLtPy a b = true ↔ List.Lex (· < ·) a.codepoints b.codepoints) ∧
    (∀ (h : List Nat → Nat) (a b : Emoji), a.codepoints = b.codepoints →
      emojiHashWith h a = emojiHashWith h b) := by
  refine ⟨?_, ?_, ?_, ?_⟩
  · intro a b
    simp [emojiEqPy, dataclassKey]
  · intro n1 n2 c s1 s2 v1 v2
    simp [emojiEqPy, dataclassKey]
  · intro a b
    exact pyListLt_iff_lex a.codepoints b.codepoints
  · intro h a b hc
    simp [emojiHashWith, hc]

/-- C10 witness: two emoji sharing codepoints but differing in name,
status and version are equal and hash alike; distinct codepoint tuples
order lexicographically. -/
theorem c10_emoji_compare_witness :
    emojiEqPy (Emoji.mk (pystr "a") [1, 2] (some Status.component) none)
      (Emoji.mk (pystr "b") [1, 2] (some Status.fully_qualified) (some (pystr "1.0"))) = true ∧
    emojiHashWith List.sum (Emoji.mk (pystr "a") [1, 2] (some Status.component) none) =
      emojiHashWith List.sum
        (Emoji.mk (pystr "b") [1, 2] (some Status.fully_qualified) (some (pystr "1.0"))) ∧
    emojiLtPy (Emoji.mk (pystr "a") [1, 2] none none)
      (Emoji.mk (pystr "a") [1, 3] none none) = true :=
  ⟨c10_emoji_compare.2.1 (pystr "a") (pystr "b") [1, 2] (some Status.component)
      (some Status.fully_qualified) none (some (pystr "1.0")),
   c10_emoji_compare.2.2.2 List.sum (Emoji.mk (pystr "a") [1, 2] (some Status.component) none)
      (Emoji.mk (pystr "b") [1, 2] (some Status.fully_qualified) (some (pystr "1.0"))) rfl,
   (c10_emoji_compare.2.2.1 (Emoji.mk (pystr "a") [1, 2] none none)
      (Emoji.mk (pystr "a") [1, 3] none none)).mpr (List.Lex.cons (List.Lex.rel (by decide)))⟩

/-- C1: amended.  A `# group:` line encountered while a subgroup is in
progress does not fail: `run` first flushes the in-progress subgroup
into the current group's table (`maybe_exit_subgroup`) and only then
calls `enter_group`, whose `assert self._subgroup_name is None`
therefore always holds; no `StructureError` is raised.  The flushed
subgroup's emoji are preserved in the group table and the parser then
stands in the new group with no subgroup active. -/
theorem c1_group_line_flushes : ∀ (st : PState) (sn : List Nat) (sub : List Emoji)
    (g gname : List Nat),
    st.subgroup_name = some sn → st.subgroup = some sub → st.group_name = some g →
    (alookup g st.group_table).isSome = true →
    ∃ st', processItem st (PItem.group gname) = Except.ok st' ∧
      st'.subgroup_name = none ∧
      st'.group_name = some gname ∧
      ∃ sgs, alookup g st'.group_table = some sgs ∧ alookup sn sgs = some sub := by
  intro st sn sub g gname hsn hsub hg hmem
  obtain ⟨sgs0, hsgs0⟩ : ∃ sgs0, alookup g st.group_table = some sgs0 := by
    cases h : alookup g st.group_table with
    | none => rw [h] at hmem; simp at hmem
    | some s => exact ⟨s, rfl⟩
  have hflush : (maybeExitSubgroup st).group_table =
      updFirst g (fun sgs => dinsert sn sub sgs) st.group_table := by
    rw [maybeExitSubgroup, hsn, hg, hsub]
  have hflushlook : alookup g (maybeExitSubgroup st).group_table =
      some (dinsert sn sub sgs0) := by
    rw [hflush]
    exact alookup_updFirst_self _ hsgs0
  refine ⟨enterGroup (maybeExitSubgroup st) gname, rfl, ?_, ?_, ?_⟩
  · rw [enterGroup]
    rw [maybeExitSubgroup, hsn, hg, hsub]
  · rw [enterGroup]
  · refine ⟨dinsert sn sub sgs0, ?_, alookup_dinsert_self sn sub sgs0⟩
    rw [enterGroup]
    simp only
    by_cases hpres : (alookup gname (maybeExitSubgroup st).group_table).isSome = true
    · rw [if_pos hpres]
      exact hflushlook
    · rw [if_neg hpres]
      exact alookup_append_left _ hflushlook

/-- C1 witness: the theorem applied to a concrete state in the middle of
subgroup `y` of group `x`, entering group `z`. -/
theorem c1_group_line_flushes_witness :
    ∃ st', processItem exMidSubgroupState (PItem.group (pystr "z")) = Except.ok st' ∧
      st'.subgroup_name = none ∧
      st'.group_name = some (pystr "z") ∧
      ∃ sgs, alookup (pystr "x") st'.group_table = some sgs ∧
        alookup (pystr "y") sgs = some [] :=
  c1_group_line_flushes exMidSubgroupState (pystr "y") [] (pystr "x") (pystr "z")
    (by decide) (by decide) (by decide) (by decide)

/-- C1 counterexample: a concrete source whose fourth line declares a
group while subgroup `face-smiling` is still open parses successfully —
the claim asserts this parse fails with a fatal `StructureError`. -/
theorem c1_group_line_cex : (runParser exMidSubgroupSource).isOk = true := by decide

/-- C1/C2/C4 style note: `addEmoji`'s guards run in source order, so
each error theorem below assumes the earlier guards pass. -/
theorem addEmoji_guard_order (st : PState)
    (hsub : st.subgroup_name.isSome = true) :
    st.subgroup_name.isNone = false := by
  cases h : st.subgroup_name with
  | none => rw [h] at hsub; simp at hsub
  | some v => simp

/-- C4: amended.  (i) A data line whose codepoint sequence is already in
the codepoint table raises the fatal duplicate error carrying the
current line number.  (ii)/(iii) A component or fully-qualified data
line whose name is already in the name table (which holds exactly the
previously registered component and fully-qualified entries) raises the
fatal duplicate-name error with the line number.  (iv) But the name
check applies only to component and fully-qualified lines: a minimally
qualified or unqualified data line is registered successfully even when
its name is already used by a previously registered component or
fully-qualified entry, leaving the name table unchanged.  (On any error
`run` aborts, so no tables are returned: `runParser` yields
`Except.error` and no partial registry.) -/
theorem c4_duplicate_errors :
    (∀ (st : PState) (e : Emoji), st.subgroup_name.isSome = true →
      (alookup e.codepoints st.codepoint_table).isSome = true →
      addEmoji st e = Except.error ⟨st.lineno, ParseErrKind.duplicateCodepoints⟩) ∧
    (∀ (st : PState) (e : Emoji), st.subgroup_name.isSome = true →
      (alookup e.codepoints st.codepoint_table).isSome = false →
      e.is_component = true → (alookup e.name st.name_table).isSome = true →
      addEmoji st e = Except.error ⟨st.lineno, ParseErrKind.duplicateComponentName⟩) ∧
    (∀ (st : PState) (e : Emoji), st.subgroup_name.isSome = true →
      (alookup e.codepoints st.codepoint_table).isSome = false →
      e.is_fully_qualified = true → (alookup e.name st.name_table).isSome = true →
      addEmoji st e = Except.error ⟨st.lineno, ParseErrKind.duplicateFullyQualifiedName⟩) ∧
    (∀ (st : PState) (e : Emoji), st.subgroup_name.isSome = true →
      (alookup e.codepoints st.codepoint_table).isSome = false →
      e.is_component = false → e.is_fully_qualified = false →
      st.group_name ≠ some (pystr "component") →
      addEmoji st e =
        Except.ok { st with codepoint_table := dinsert e.codepoints e st.codepoint_table }) := by
  refine ⟨?_, ?_, ?_, ?_⟩
  · intro st e hsub hdup
    rw [addEmoji, if_neg (by simp [addEmoji_guard_order st hsub]), if_pos (by simp [hdup])]
  · intro st e hsub hfresh hcomp hname
    rw [addEmoji, if_neg (by simp [addEmoji_guard_order st hsub]),
      if_neg (by simp [hfresh]), if_pos (by simp [hcomp, hname])]
  · intro st e hsub hfresh hfq hname
    have hcomp : e.is_component = false := by
      rw [Emoji.is_component]
      rw [Emoji.is_fully_qualified] at hfq
      simp only [decide_eq_true_eq] at hfq
      simp [hfq]
    rw [addEmoji, if_neg (by simp [addEmoji_guard_order st hsub]),
      if_neg (by simp [hfresh]), if_neg (by simp [hcomp]), if_pos (by simp [hfq, hname])]
  · intro st e hsub hfresh hcomp hfq hgrp
    rw [addEmoji, if_neg (by simp [addEmoji_guard_order st hsub]),
      if_neg (by simp [hfresh]), if_neg (by simp [hcomp]), if_neg (by simp [hfq]),
      if_neg (by simp [hcomp, hgrp]), if_neg (by simp [hcomp, hgrp]),
      if_neg (by simp [hcomp, hfq])]

/-- C4 witness: the theorem's four behaviours at concrete states — a
duplicate-codepoint line, a duplicate component name, a duplicate
fully-qualified name, and a minimally-qualified line that reuses a name
without error. -/
theorem c4_duplicate_errors_witness :
    addEmoji ⟨5, [], [([1], Emoji.mk (pystr "a") [1] (some Status.fully_qualified) none)],
        [], some (pystr "g"), some (pystr "s"), some []⟩
      (Emoji.mk (pystr "b") [1] (some Status.fully_qualified) none) =
      Except.error ⟨5, ParseErrKind.duplicateCodepoints⟩ ∧
    addEmoji ⟨6, [(pystr "a", Emoji.mk (pystr "a") [1] (some Status.component) none)], [],
        [], some (pystr "component"), some (pystr "s"), some []⟩
      (Emoji.mk (pystr "a") [2] (some Status.component) none) =
      Except.error ⟨6, ParseErrKind.duplicateComponentName⟩ ∧
    addEmoji ⟨7, [(pystr "a", Emoji.mk (pystr "a") [1] (some Status.fully_qualified) none)], [],
        [], some (pystr "g"), some (pystr "s"), some []⟩
      (Emoji.mk (pystr "a") [2] (some Status.fully_qualified) none) =
      Except.error ⟨7, ParseErrKind.duplicateFullyQualifiedName⟩ ∧
    addEmoji ⟨8, [(pystr "a", Emoji.mk (pystr "a") [1] (some Status.component) none)], [],
        [], some (pystr "g"), some (pystr "s"), some []⟩
      (Emoji.mk (pystr "a") [2] (some Status.unqualified) none) =
      Except.ok { (⟨8, [(pystr "a", Emoji.mk (pystr "a") [1] (some Status.component) none)], [],
        [], some (pystr "g"), some (pystr "s"), some []⟩ : PState) with
          codepoint_table := dinsert [2] (Emoji.mk (pystr "a") [2] (some Status.unqualified) none) [] } :=
  ⟨c4_duplicate_errors.1 _ _ (by decide) (by decide),
   c4_duplicate_errors.2.1 _ _ (by decide) (by decide) (by decide) (by decide),
   c4_duplicate_errors.2.2.1 _ _ (by decide) (by decide) (by decide) (by decide),
   c4_duplicate_errors.2.2.2 _ _ (by decide) (by decide) (by decide) (by decide) (by decide)⟩

/-- C4 counterexample: a concrete source whose last line is an
unqualified entry named `beta`, a name already used by a previously
registered component — the claim asserts a fatal `DuplicateError`, yet
the parse succeeds (and the repointed codepoint-table entry is that
component). -/
theorem c4_name_reuse_cex :
    (runParser exNameReuseSource).isOk = true ∧
    ctStatusAt (runParser exNameReuseSource) [5] = some (some Status.component) := by
  decide


theorem typeCheck_ok_inv {ref : List Nat} {ty : Option (List Nat)} {v v' : JVal}
    (h : typeCheck ref ty v = Except.ok v') :
    v' = v ∧ ∀ t, ty = some t → ∃ pd, v = JVal.dict pd ∧
      alookup (pystr "/Type") pd = some (JVal.s t) := by
  cases ty with
  | none =>
    refine ⟨by simpa [typeCheck] using h.symm, fun t ht => by simp at ht⟩
  | some t =>
    cases v with
    | arr xs => simp [typeCheck, pyGet, error_bind] at h
    | s sv => simp [typeCheck, pyGet, error_bind] at h
    | dict pd =>
      simp only [typeCheck, pyGet, ok_bind] at h
      cases htv : alookup (pystr "/Type") pd with
      | none => rw [htv] at h; simp at h
      | some tv =>
        rw [htv] at h
        cases tv with
        | arr xs => exact absurd h (by simp)
        | dict d2 => exact absurd h (by simp)
        | s t' =>
          have h2 : (if t' = t then Except.ok (JVal.dict pd)
              else Except.error (PdfErr.typeMismatch ref)) = Except.ok v' := h
          by_cases htt : t' = t
          · rw [if_pos htt] at h2
            subst htt
            have hv : JVal.dict pd = v' := by simpa using h2
            exact ⟨hv.symm, fun t2 ht2 => ⟨pd, rfl, by
              have : t2 = t' := (Option.some.inj ht2).symm
              rw [this, htv]⟩⟩
          · rw [if_neg htt] at h2
            simp at h2

theorem resolveValue_ok_inv {objects : Objects} {ref : List Nat} {ty : Option (List Nat)}
    {v : JVal} (h : resolveValue objects ref ty = Except.ok v) :
    ∃ w, alookup (refKey ref) objects = some (JVal.dict w) ∧
      alookup (pystr "value") w = some v ∧
      ∀ t, ty = some t → ∃ pd, v = JVal.dict pd ∧
        alookup (pystr "/Type") pd = some (JVal.s t) := by
  rw [resolveValue, resolveObj] at h
  cases ho : alookup (refKey ref) objects with
  | none => rw [ho] at h; simp [error_bind] at h
  | some o =>
    rw [ho, ok_bind] at h
    by_cases hc : pyContains o (pystr "value") = true
    · rw [if_pos hc] at h
      cases o with
      | arr xs => rw [show pySubscript (JVal.arr xs) (pystr "value") =
          Except.error PdfErr.typeError from rfl, error_bind] at h; simp at h
      | s sv => rw [show pySubscript (JVal.s sv) (pystr "value") =
          Except.error PdfErr.typeError from rfl, error_bind] at h; simp at h
      | dict d =>
        cases hv : alookup (pystr "value") d with
        | none =>
          rw [show pySubscript (JVal.dict d) (pystr "value") =
            Except.error (PdfErr.keyError (pystr "value")) by simp [pySubscript, hv],
            error_bind] at h
          simp at h
        | some v0 =>
          rw [show pySubscript (JVal.dict d) (pystr "value") = Except.ok v0 by
            simp [pySubscript, hv], ok_bind] at h
          obtain ⟨hvv, hty⟩ := typeCheck_ok_inv h
          exact ⟨d, rfl, hvv ▸ hv, fun t ht => by
            obtain ⟨pd, hpd, hT⟩ := hty t ht
            exact ⟨pd, hvv ▸ hpd, hT⟩⟩
    · rw [if_neg hc] at h
      simp at h

theorem resolveValue_compute {objects : Objects} {ref : List Nat}
    {w : List (List Nat × JVal)} {v : JVal}
    (hw : alookup (refKey ref) objects = some (JVal.dict w))
    (hv : alookup (pystr "value") w = some v) :
    resolveValue objects ref none = Except.ok v := by
  rw [resolveValue, resolveObj, hw, ok_bind,
    if_pos (show pyContains (JVal.dict w) (pystr "value") = true by simp [pyContains, hv]),
    show pySubscript (JVal.dict w) (pystr "value") = Except.ok v by simp [pySubscript, hv],
    ok_bind]
  rfl

theorem resolveValue_compute_typed {objects : Objects} {ref : List Nat}
    {w pd : List (List Nat × JVal)} {t : List Nat}
    (hw : alookup (refKey ref) objects = some (JVal.dict w))
    (hv : alookup (pystr "value") w = some (JVal.dict pd))
    (ht : alookup (pystr "/Type") pd = some (JVal.s t)) :
    resolveValue objects ref (some t) = Except.ok (JVal.dict pd) := by
  rw [resolveValue, resolveObj, hw, ok_bind,
    if_pos (show pyContains (JVal.dict w) (pystr "value") = true by simp [pyContains, hv]),
    show pySubscript (JVal.dict w) (pystr "value") = Except.ok (JVal.dict pd) by
      simp [pySubscript, hv],
    ok_bind]
  have h0 : typeCheck ref (some t) (JVal.dict pd) =
      (match alookup (pystr "/Type") pd with
        | some (JVal.s t') => if t' = t then Except.ok (JVal.dict pd)
            else Except.error (PdfErr.typeMismatch ref)
        | _ => Except.error (PdfErr.typeMismatch ref)) := rfl
  rw [h0, ht]
  exact if_pos rfl

theorem resolveValue_congr {objects objects' : Objects} {ref : List Nat}
    (ty : Option (List Nat))
    (h : alookup (refKey ref) objects' = alookup (refKey ref) objects) :
    resolveValue objects' ref ty = resolveValue objects ref ty := by
  rw [resolveValue, resolveValue, resolveObj, resolveObj, h]

theorem pySubscript_dict_inv {d : List (List Nat × JVal)} {k : List Nat} {v : JVal}
    (h : pySubscript (JVal.dict d) k = Except.ok v) : alookup k d = some v := by
  cases hl : alookup k d with
  | none => rw [pySubscript, hl] at h; simp at h
  | some v0 =>
    rw [pySubscript, hl] at h
    have h2 : (Except.ok v0 : Except PdfErr JVal) = Except.ok v := h
    simpa using h2

theorem asRefString_ok_inv {v : JVal} {r : List Nat}
    (h : asRefString v = Except.ok r) : v = JVal.s r := by
  cases v with
  | s x => simp [asRefString] at h; rw [h]
  | arr xs => simp [asRefString] at h
  | dict d => simp [asRefString] at h

theorem resolveKidsList_ok_inv {objects : Objects} {kids : List JVal}
    (h : resolveKidsList objects = Except.ok kids) :
    ∃ trailer rootRef root pagesRef pagesV,
      resolveValue objects (pystr "trailer") none = Except.ok trailer ∧
      pySubscript trailer (pystr "/Root") = Except.ok (JVal.s rootRef) ∧
      resolveValue objects rootRef (some (pystr "/Catalog")) = Except.ok root ∧
      pySubscript root (pystr "/Pages") = Except.ok (JVal.s pagesRef) ∧
      resolveValue objects pagesRef (some (pystr "/Pages")) = Except.ok pagesV ∧
      pySubscript pagesV (pystr "/Kids") = Except.ok (JVal.arr kids) := by
  rw [resolveKidsList] at h
  obtain ⟨trailer, h1, h⟩ := (bind_eq_ok _ _ _).mp h
  obtain ⟨rootRef0, h2, h⟩ := (bind_eq_ok _ _ _).mp h
  obtain ⟨rootRefS, h3, h⟩ := (bind_eq_ok _ _ _).mp h
  obtain ⟨root, h4, h⟩ := (bind_eq_ok _ _ _).mp h
  obtain ⟨pagesRef0, h5, h⟩ := (bind_eq_ok _ _ _).mp h
  obtain ⟨pagesRefS, h6, h⟩ := (bind_eq_ok _ _ _).mp h
  obtain ⟨pagesV, h7, h⟩ := (bind_eq_ok _ _ _).mp h
  obtain ⟨kidsV, h8, h⟩ := (bind_eq_ok _ _ _).mp h
  have hroot0 := asRefString_ok_inv h3
  have hpages0 := asRefString_ok_inv h6
  subst hroot0
  subst hpages0
  cases kidsV with
  | s sv => simp at h
  | dict d => simp at h
  | arr xs =>
    have hxs : xs = kids := by simpa using h
    subst hxs
    exact ⟨trailer, rootRefS, root, pagesRefS, pagesV, h1, h2, h4, h5, h7, h8⟩

theorem resolvePage_ok_inv {objects : Objects} {kid : List Nat}
    {pd : List (List Nat × JVal)} (h : resolvePage objects = Except.ok (kid, pd)) :
    resolveKidsList objects = Except.ok [JVal.s kid] ∧
      resolveValue objects kid (some (pystr "/Page")) = Except.ok (JVal.dict pd) := by
  rw [resolvePage] at h
  obtain ⟨kids, hk, h⟩ := (bind_eq_ok _ _ _).mp h
  by_cases hlen : kids.length > 1
  · rw [if_pos hlen] at h; simp at h
  · rw [if_neg hlen] at h
    cases kids with
    | nil => simp at h
    | cons kid0 rest =>
      cases rest with
      | cons k2 r2 => simp at hlen
      | nil =>
        obtain ⟨kidS, hks, h⟩ := (bind_eq_ok _ _ _).mp h
        have hk0 := asRefString_ok_inv hks
        subst hk0
        obtain ⟨page, hp, h⟩ :=
          (bind_eq_ok (resolveValue objects kidS (some (pystr "/Page"))) _ _).mp h
        cases page with
        | s sv => simp at h
        | arr xs => simp at h
        | dict pd0 =>
          have h2 : (Except.ok (kidS, pd0) :
              Except PdfErr (List Nat × List (List Nat × JVal))) = Except.ok (kid, pd) := h
          have hinj : kidS = kid ∧ pd0 = pd := by
            simpa [Prod.ext_iff] using h2
          obtain ⟨hkk, hpp⟩ := hinj
          subst hkk
          subst hpp
          exact ⟨hk, hp⟩

theorem patch_changed_inv {objects objects' : Objects}
    (h : remove_page_group_object objects = Except.ok (some objects')) :
    ∃ kid pd, resolvePage objects = Except.ok (kid, pd) ∧
      (alookup (pystr "/Group") pd).isSome = true ∧
      objects' = mutatePage objects kid pd := by
  rw [remove_page_group_object] at h
  obtain ⟨kp, h1, h⟩ := (bind_eq_ok _ _ _).mp h
  by_cases hg : (alookup (pystr "/Group") kp.2).isSome = true
  · rw [if_pos hg] at h
    have : mutatePage objects kp.1 kp.2 = objects' := by simpa using h
    exact ⟨kp.1, kp.2, h1, hg, this.symm⟩
  · rw [if_neg hg] at h
    simp at h

/-- C9: confirmed.  When the resolved Page object lacks `/Group` the
patcher reports no change (`None`, i.e. `changed = false`) and performs
no mutation; and in particular the output of a prior successful patch
always resolves to a Page without `/Group` again, so re-applying the
patch is a no-op reporting `changed = false`. -/
theorem c9_patch_idempotent :
    (∀ (objects : Objects) (kid : List Nat) (pd : List (List Nat × JVal)),
      resolvePage objects = Except.ok (kid, pd) →
      alookup (pystr "/Group") pd = none →
      remove_page_group_object objects = Except.ok none) ∧
    (∀ objects objects' : Objects,
      remove_page_group_object objects = Except.ok (some objects') →
      remove_page_group_object objects' = Except.ok none) := by
  constructor
  · intro objects kid pd hrp hG
    rw [remove_page_group_object, hrp, ok_bind, if_neg (by simp [hG])]
  · intro objects objects' h
    obtain ⟨kid, pd, hrp, hG, hmut⟩ := patch_changed_inv h
    obtain ⟨hkl, hpage⟩ := resolvePage_ok_inv hrp
    obtain ⟨w, hw, hwv, hwt⟩ := resolveValue_ok_inv hpage
    obtain ⟨pd0, hpd0, hT0⟩ := hwt _ rfl
    have hpdeq : pd = pd0 := by injection hpd0 with h3
    have hT : alookup (pystr "/Type") pd = some (JVal.s (pystr "/Page")) := by
      rw [hpdeq]
      exact hT0
    -- the mutated wrapper
    have hOL : alookup (refKey kid) objects' =
        some (JVal.dict (dinsert (pystr "value")
          (JVal.dict (dremove (pystr "/Group") pd)) w)) := by
      rw [hmut, mutatePage]
      exact alookup_updFirst_self _ hw
    have hON : ∀ k, k ≠ refKey kid → alookup k objects' = alookup k objects := by
      intro k hk
      rw [hmut, mutatePage]
      exact alookup_updFirst_ne _ objects hk
    -- resolving the page on the patched document
    have hpage' : resolveValue objects' kid (some (pystr "/Page")) =
        Except.ok (JVal.dict (dremove (pystr "/Group") pd)) := by
      refine resolveValue_compute_typed hOL (alookup_dinsert_self _ _ _) ?_
      rw [alookup_dremove_ne pd (by decide)]
      exact hT
    -- stages of the original resolution
    obtain ⟨trailer, rootRef, root, pagesRef, pagesV, e1, e2, e3, e4, e5, e6⟩ :=
      resolveKidsList_ok_inv hkl
    obtain ⟨wr, hwr, hwrv, hwrt⟩ := resolveValue_ok_inv e3
    obtain ⟨rpd, hrpd, hrT⟩ := hwrt _ rfl
    obtain ⟨wp, hwp, hwpv, hwpt⟩ := resolveValue_ok_inv e5
    obtain ⟨ppd, hppd, hpT⟩ := hwpt _ rfl
    -- the catalog and pages objects live at keys other than the page's
    have hrne : refKey rootRef ≠ refKey kid := by
      intro heq
      rw [heq, hw] at hwr
      have hww : w = wr := by
        have h2 := Option.some.inj hwr
        injection h2
      rw [← hww, hwv] at hwrv
      have hrv : root = JVal.dict pd := (Option.some.inj hwrv).symm
      rw [hrv] at hrpd
      have hre : pd = rpd := by injection hrpd
      rw [← hre, hT] at hrT
      have h4 := Option.some.inj hrT
      have h5 : pystr "/Page" = pystr "/Catalog" := by injection h4
      exact absurd h5 (by decide)
    have hpne : refKey pagesRef ≠ refKey kid := by
      intro heq
      rw [heq, hw] at hwp
      have hww : w = wp := by
        have h2 := Option.some.inj hwp
        injection h2
      rw [← hww, hwv] at hwpv
      have hpv : pagesV = JVal.dict pd := (Option.some.inj hwpv).symm
      rw [hpv] at hppd
      have hpe : pd = ppd := by injection hppd
      rw [← hpe, hT] at hpT
      have h4 := Option.some.inj hpT
      have h5 : pystr "/Page" = pystr "/Pages" := by injection h4
      exact absurd h5 (by decide)
    -- trailer stage on the patched document
    obtain ⟨trailer', e1', e2'⟩ : ∃ tr',
        resolveValue objects' (pystr "trailer") none = Except.ok tr' ∧
        pySubscript tr' (pystr "/Root") = Except.ok (JVal.s rootRef) := by
      by_cases hteq : refKey (pystr "trailer") = refKey kid
      · obtain ⟨wt, hwt1, hwt2, _⟩ := resolveValue_ok_inv e1
        rw [hteq, hw] at hwt1
        have hww : w = wt := by
          have h2 := Option.some.inj hwt1
          injection h2
        rw [← hww, hwv] at hwt2
        have htr : trailer = JVal.dict pd := (Option.some.inj hwt2).symm
        refine ⟨JVal.dict (dremove (pystr "/Group") pd), ?_, ?_⟩
        · have hWT : alookup (refKey (pystr "trailer")) objects' =
              some (JVal.dict (dinsert (pystr "value")
                (JVal.dict (dremove (pystr "/Group") pd)) w)) := by
            rw [hteq]
            exact hOL
          exact resolveValue_compute hWT (alookup_dinsert_self _ _ _)
        · rw [pySubscript, alookup_dremove_ne pd (by decide)]
          have : alookup (pystr "/Root") pd = some (JVal.s rootRef) := by
            have := e2
            rw [htr] at this
            exact pySubscript_dict_inv this
          rw [this]
      · refine ⟨trailer, ?_, e2⟩
        rw [resolveValue_congr none (hON _ hteq)]
        exact e1
    -- catalog and pages stages are untouched
    have e3' : resolveValue objects' rootRef (some (pystr "/Catalog")) = Except.ok root := by
      rw [resolveValue_congr _ (hON _ hrne)]
      exact e3
    have e5' : resolveValue objects' pagesRef (some (pystr "/Pages")) = Except.ok pagesV := by
      rw [resolveValue_congr _ (hON _ hpne)]
      exact e5
    -- reassemble the pipeline on the patched document
    have hkl' : resolveKidsList objects' = Except.ok [JVal.s kid] := by
      rw [resolveKidsList, e1', ok_bind, e2', ok_bind,
        show asRefString (JVal.s rootRef) = Except.ok rootRef from rfl, ok_bind,
        e3', ok_bind, e4, ok_bind,
        show asRefString (JVal.s pagesRef) = Except.ok pagesRef from rfl, ok_bind,
        e5', ok_bind, e6, ok_bind]
    have hrp' : resolvePage objects' =
        Except.ok (kid, dremove (pystr "/Group") pd) := by
      rw [resolvePage, hkl', ok_bind, if_neg (by simp)]
      have hstep : (do
          let kidS ← asRefString (JVal.s kid)
          let page ← resolveValue objects' kidS (some (pystr "/Page"))
          match page with
          | JVal.dict pd2 => Except.ok (kidS, pd2)
          | _ => Except.error PdfErr.typeError) =
          (Except.ok (kid, dremove (pystr "/Group") pd) :
            Except PdfErr (List Nat × List (List Nat × JVal))) := by
        rw [show asRefString (JVal.s kid) = Except.ok kid from rfl, ok_bind, hpage', ok_bind]
      exact hstep
    rw [remove_page_group_object, hrp', ok_bind,
      if_neg (by simp [alookup_dremove_self])]

/-- C9 witness: a concrete one-page document with a `/Group` is patched
to `exDocPatched`; re-applying the patch to it reports no change. -/
theorem c9_patch_idempotent_witness :
    remove_page_group_object exDocPatched = Except.ok none :=
  c9_patch_idempotent.2 exDocWithGroup exDocPatched (by rfl)

theorem mem_dinsert_inv {α β : Type} [DecidableEq α] {k : α} {x : β}
    {l : List (α × β)} {p : α × β} (h : p ∈ dinsert k x l) : p = (k, x) ∨ p ∈ l := by
  induction l with
  | nil => simpa [dinsert] using h
  | cons q rest ih =>
    rw [show q = (q.1, q.2) from rfl, dinsert] at h
    by_cases hk : q.1 = k
    · rw [if_pos hk] at h
      rcases List.mem_cons.mp h with h1 | h1
      · exact Or.inl h1
      · exact Or.inr (List.mem_cons_of_mem _ h1)
    · rw [if_neg hk] at h
      rcases List.mem_cons.mp h with h1 | h1
      · exact Or.inr (h1 ▸ List.mem_cons_self _ _)
      · rcases ih h1 with h2 | h2
        · exact Or.inl h2
        · exact Or.inr (List.mem_cons_of_mem _ h2)

theorem mem_dinsert_fwd {α β : Type} [DecidableEq α] (k : α) (x : β)
    {l : List (α × β)} {p : α × β} (h : p ∈ l) :
    p ∈ dinsert k x l ∨ (p.1 = k ∧ alookup k l = some p.2) := by
  induction l with
  | nil => simp at h
  | cons q rest ih =>
    rw [show q = (q.1, q.2) from rfl, dinsert]
    rcases List.mem_cons.mp h with h1 | h1
    · by_cases hk : q.1 = k
      · right
        refine ⟨by rw [h1]; exact hk, ?_⟩
        rw [show q = (q.1, q.2) from rfl, alookup, if_pos hk.symm, h1]
      · left
        rw [if_neg hk]
        exact h1 ▸ List.mem_cons_self _ _
    · by_cases hk : q.1 = k
      · left
        rw [if_pos hk]
        exact List.mem_cons_of_mem _ h1
      · rcases ih h1 with h2 | h2
        · left
          rw [if_neg hk]
          exact List.mem_cons_of_mem _ h2
        · right
          refine ⟨h2.1, ?_⟩
          have hne : ¬ k = q.1 := fun hh => hk hh.symm
          rw [show q = (q.1, q.2) from rfl, alookup, if_neg hne]
          exact h2.2

theorem mem_dinsert_self {α β : Type} [DecidableEq α] (k : α) (x : β)
    (l : List (α × β)) : (k, x) ∈ dinsert k x l := by
  induction l with
  | nil => simp [dinsert]
  | cons q rest ih =>
    rw [show q = (q.1, q.2) from rfl, dinsert]
    by_cases hk : q.1 = k
    · rw [if_pos hk]
      exact List.mem_cons_self _ _
    · rw [if_neg hk]
      exact List.mem_cons_of_mem _ ih

theorem mem_updFirst_inv {α β : Type} [DecidableEq α] {k : α} {f : β → β}
    {l : List (α × β)} {p : α × β} (h : p ∈ updFirst k f l) :
    p ∈ l ∨ ∃ v, alookup k l = some v ∧ p = (k, f v) := by
  induction l with
  | nil => simp [updFirst] at h
  | cons q rest ih =>
    rw [show q = (q.1, q.2) from rfl, updFirst] at h
    by_cases hk : q.1 = k
    · rw [if_pos hk] at h
      rcases List.mem_cons.mp h with h1 | h1
      · right
        exact ⟨q.2, by rw [show q = (q.1, q.2) from rfl, alookup, if_pos hk.symm], by rw [h1, hk]⟩
      · exact Or.inl (List.mem_cons_of_mem _ h1)
    · rw [if_neg hk] at h
      rcases List.mem_cons.mp h with h1 | h1
      · exact Or.inl (h1 ▸ List.mem_cons_self _ _)
      · rcases ih h1 with h2 | h2
        · exact Or.inl (List.mem_cons_of_mem _ h2)
        · obtain ⟨v, hv, hp⟩ := h2
          right
          refine ⟨v, ?_, hp⟩
          have hne : ¬ k = q.1 := fun hh => hk hh.symm
          rw [show q = (q.1, q.2) from rfl, alookup, if_neg hne]
          exact hv

theorem mem_updFirst_fwd {α β : Type} [DecidableEq α] (k : α) (f : β → β)
    {l : List (α × β)} {p : α × β} (h : p ∈ l) :
    p ∈ updFirst k f l ∨ (p.1 = k ∧ alookup k l = some p.2) := by
  induction l with
  | nil => simp at h
  | cons q rest ih =>
    rw [show q = (q.1, q.2) from rfl, updFirst]
    rcases List.mem_cons.mp h with h1 | h1
    · by_cases hk : q.1 = k
      · right
        refine ⟨by rw [h1]; exact hk, ?_⟩
        rw [show q = (q.1, q.2) from rfl, alookup, if_pos hk.symm, h1]
      · left
        rw [if_neg hk]
        exact h1 ▸ List.mem_cons_self _ _
    · by_cases hk : q.1 = k
      · left
        rw [if_pos hk]
        exact List.mem_cons_of_mem _ h1
      · rcases ih h1 with h2 | h2
        · left
          rw [if_neg hk]
          exact List.mem_cons_of_mem _ h2
        · right
          refine ⟨h2.1, ?_⟩
          have hne : ¬ k = q.1 := fun hh => hk hh.symm
          rw [show q = (q.1, q.2) from rfl, alookup, if_neg hne]
          exact h2.2

theorem updFirst_mem_self {α β : Type} [DecidableEq α] {k : α} (f : β → β)
    {l : List (α × β)} {v : β} (h : alookup k l = some v) :
    (k, f v) ∈ updFirst k f l := by
  induction l with
  | nil => simp [alookup] at h
  | cons q rest ih =>
    rw [show q = (q.1, q.2) from rfl, updFirst]
    by_cases hk : q.1 = k
    · rw [if_pos hk]
      rw [show q = (q.1, q.2) from rfl, alookup, if_pos hk.symm] at h
      have : q.2 = v := Option.some.inj h
      rw [hk, this]
      exact List.mem_cons_self _ _
    · rw [if_neg hk]
      have hne : ¬ k = q.1 := fun hh => hk hh.symm
      rw [show q = (q.1, q.2) from rfl, alookup, if_neg hne] at h
      exact List.mem_cons_of_mem _ (ih h)

theorem maybeExit_fields (st : PState) :
    (maybeExitSubgroup st).codepoint_table = st.codepoint_table ∧
    (maybeExitSubgroup st).name_table = st.name_table ∧
    (maybeExitSubgroup st).lineno = st.lineno ∧
    (maybeExitSubgroup st).group_name = st.group_name ∧
    (maybeExitSubgroup st).subgroup_name = none := by
  rw [maybeExitSubgroup]
  cases hs : st.subgroup_name with
  | none => exact ⟨rfl, rfl, rfl, rfl, hs⟩
  | some sn =>
    cases hg : st.group_name <;> cases hb : st.subgroup <;> exact ⟨rfl, rfl, rfl, rfl, rfl⟩

theorem maybeExit_subgroup_none (st : PState)
    (h : st.subgroup_name = none → st.subgroup = none) :
    (maybeExitSubgroup st).subgroup = none := by
  rw [maybeExitSubgroup]
  cases hs : st.subgroup_name with
  | none => exact h hs
  | some sn => cases hg : st.group_name <;> cases hb : st.subgroup <;> rfl

theorem maybeExit_idem (st : PState) :
    maybeExitSubgroup (maybeExitSubgroup st) = maybeExitSubgroup st := by
  have h5 := (maybeExit_fields st).2.2.2.2
  rw [show maybeExitSubgroup (maybeExitSubgroup st) =
    (match (maybeExitSubgroup st).subgroup_name with
      | none => maybeExitSubgroup st
      | some sn =>
        match (maybeExitSubgroup st).group_name, (maybeExitSubgroup st).subgroup with
        | some g, some sub =>
          { maybeExitSubgroup st with
            group_table := updFirst g (fun sgs => dinsert sn sub sgs)
              (maybeExitSubgroup st).group_table
            subgroup_name := none
            subgroup := none }
        | _, _ => { maybeExitSubgroup st with subgroup_name := none, subgroup := none } )
    from rfl, h5]

theorem flushView_lineno (st : PState) (n : Nat) :
    flushView { st with lineno := n } = flushView st := by
  rw [flushView, flushView, maybeExitSubgroup, maybeExitSubgroup]
  cases hs : st.subgroup_name with
  | none => rfl
  | some sn => cases hg : st.group_name <;> cases hb : st.subgroup <;> rfl

theorem addEmoji_ok_inv {st : PState} {e : Emoji} {st' : PState}
    (h : addEmoji st e = Except.ok st') :
    st.subgroup_name.isSome = true ∧
    alookup e.codepoints st.codepoint_table = none ∧
    ((e.is_component || e.is_fully_qualified) = true →
      alookup e.name st.name_table = none) ∧
    (e.is_component = true ↔ st.group_name = some (pystr "component")) ∧
    st' = (if (e.is_component || e.is_fully_qualified) = true then
      { st with codepoint_table := dinsert e.codepoints e st.codepoint_table,
                name_table := dinsert e.name e st.name_table,
                subgroup := some (st.subgroup.getD [] ++ [e]) }
    else { st with codepoint_table := dinsert e.codepoints e st.codepoint_table }) := by
  rw [addEmoji] at h
  split at h
  next h1 => simp at h
  next h1 =>
    split at h
    next h2 => simp at h
    next h2 =>
      split at h
      next h3 => simp at h
      next h3 =>
        split at h
        next h4 => simp at h
        next h4 =>
          split at h
          next h5 => simp at h
          next h5 =>
            split at h
            next h6 => simp at h
            next h6 =>
              have c1 : st.subgroup_name.isSome = true := by
                cases hs : st.subgroup_name with
                | none => rw [hs] at h1; simp at h1
                | some sn => simp
              have c2 : alookup e.codepoints st.codepoint_table = none := by
                cases hc : alookup e.codepoints st.codepoint_table with
                | none => rfl
                | some v => rw [hc] at h2; simp at h2
              have c3 : (e.is_component || e.is_fully_qualified) = true →
                  alookup e.name st.name_table = none := by
                intro hcf
                cases hn : alookup e.name st.name_table with
                | none => rfl
                | some v =>
                  rcases Bool.or_eq_true_iff.mp hcf with hcc | hff
                  · rw [hcc, hn] at h3; simp at h3
                  · rw [hff, hn] at h4; simp at h4
              have c4 : e.is_component = true ↔ st.group_name = some (pystr "component") := by
                constructor
                · intro hcc
                  by_contra hgg
                  rw [hcc] at h6
                  simp [hgg] at h6
                · intro hgg
                  by_contra hcc
                  have : e.is_component = false := by
                    cases hb : e.is_component
                    · rfl
                    · exact absurd hb hcc
                  rw [this] at h5
                  simp [hgg] at h5
              refine ⟨c1, c2, c3, c4, ?_⟩
              split at h
              next h7 =>
                rw [if_pos h7]
                exact (Option.some.inj (by simpa using h)).symm
              next h7 =>
                rw [if_neg h7]
                exact (Option.some.inj (by simpa using h)).symm

theorem processItem_ct_persist {st : PState} {it : PItem} {st' : PState}
    (h : processItem st it = Except.ok st') {k : List Nat} {v : Emoji}
    (hk : alookup k st.codepoint_table = some v) :
    alookup k st'.codepoint_table = some v := by
  cases it with
  | blank =>
    have : st = st' := by simpa [processItem] using h
    rw [← this]
    exact hk
  | group g =>
    have : enterGroup (maybeExitSubgroup st) g = st' := by simpa [processItem] using h
    rw [← this, enterGroup]
    simpa [(maybeExit_fields st).1] using hk
  | subgroup sg =>
    rw [processItem, enterSubgroup] at h
    split at h
    · simp at h
    · have h2 := Option.some.inj (by simpa using h)
      rw [← h2]
      simpa [(maybeExit_fields st).1] using hk
  | emoji e =>
    obtain ⟨_, hfresh, _, _, hst'⟩ := addEmoji_ok_inv h
    have hkne : k ≠ e.codepoints := by
      intro hh
      rw [hh, hfresh] at hk
      exact absurd hk (by simp)
    rw [hst']
    split <;> simpa [alookup_dinsert_ne _ _ hkne] using hk

theorem processItem_nt_persist {st : PState} {it : PItem} {st' : PState}
    (h : processItem st it = Except.ok st') {k : List Nat} {v : Emoji}
    (hk : alookup k st.name_table = some v) :
    alookup k st'.name_table = some v := by
  cases it with
  | blank =>
    have : st = st' := by simpa [processItem] using h
    rw [← this]
    exact hk
  | group g =>
    have : enterGroup (maybeExitSubgroup st) g = st' := by simpa [processItem] using h
    rw [← this, enterGroup]
    simpa [(maybeExit_fields st).2.1] using hk
  | subgroup sg =>
    rw [processItem, enterSubgroup] at h
    split at h
    · simp at h
    · have h2 := Option.some.inj (by simpa using h)
      rw [← h2]
      simpa [(maybeExit_fields st).2.1] using hk
  | emoji e =>
    obtain ⟨_, _, hname, _, hst'⟩ := addEmoji_ok_inv h
    rw [hst']
    split
    next h7 =>
      have hkne : k ≠ e.name := by
        intro hh
        rw [hh, hname h7] at hk
        exact absurd hk (by simp)
      simpa [alookup_dinsert_ne _ _ hkne] using hk
    next h7 => simpa using hk

theorem processLines_ct_persist : ∀ (items : List PItem) (st st' : PState),
    processLines st items = Except.ok st' →
    ∀ k v, alookup k st.codepoint_table = some v →
      alookup k st'.codepoint_table = some v := by
  intro items
  induction items with
  | nil =>
    intro st st' h k v hk
    have : st = st' := by simpa [processLines] using h
    rw [← this]
    exact hk
  | cons it rest ih =>
    intro st st' h k v hk
    rw [processLines] at h
    obtain ⟨st1, h1, h2⟩ := (bind_eq_ok _ _ _).mp h
    exact ih st1 st' h2 k v (processItem_ct_persist h1 hk)

theorem processLines_nt_persist : ∀ (items : List PItem) (st st' : PState),
    processLines st items = Except.ok st' →
    ∀ k v, alookup k st.name_table = some v →
      alookup k st'.name_table = some v := by
  intro items
  induction items with
  | nil =>
    intro st st' h k v hk
    have : st = st' := by simpa [processLines] using h
    rw [← this]
    exact hk
  | cons it rest ih =>
    intro st st' h k v hk
    rw [processLines] at h
    obtain ⟨st1, h1, h2⟩ := (bind_eq_ok _ _ _).mp h
    exact ih st1 st' h2 k v (processItem_nt_persist h1 hk)

theorem processLines_ct_mem : ∀ (items : List PItem) (st st' : PState),
    processLines st items = Except.ok st' →
    ∀ e : Emoji, PItem.emoji e ∈ items →
      alookup e.codepoints st'.codepoint_table = some e := by
  intro items
  induction items with
  | nil => intro st st' h e hmem; simp at hmem
  | cons it rest ih =>
    intro st st' h e hmem
    rw [processLines] at h
    obtain ⟨st1, h1, h2⟩ := (bind_eq_ok _ _ _).mp h
    rcases List.mem_cons.mp hmem with hh | hh
    · subst hh
      obtain ⟨_, _, _, _, hst'⟩ := addEmoji_ok_inv h1
      have hself : alookup e.codepoints st1.codepoint_table = some e := by
        rw [hst']
        split <;> exact alookup_dinsert_self _ _ _
      exact processLines_ct_persist rest st1 st' h2 _ _ hself
    · exact ih st1 st' h2 e hh


theorem processItem_ntInv {st : PState} {it : PItem} {st' : PState}
    (h : processItem st it = Except.ok st') (hi : NtInv st.name_table) :
    NtInv st'.name_table := by
  cases it with
  | blank =>
    have : st = st' := by simpa [processItem] using h
    rw [← this]
    exact hi
  | group g =>
    have : enterGroup (maybeExitSubgroup st) g = st' := by simpa [processItem] using h
    rw [← this, enterGroup]
    simpa [(maybeExit_fields st).2.1] using hi
  | subgroup sg =>
    rw [processItem, enterSubgroup] at h
    split at h
    · simp at h
    · have h2 := Option.some.inj (by simpa using h)
      rw [← h2]
      simpa [(maybeExit_fields st).2.1] using hi
  | emoji e =>
    obtain ⟨_, _, _, _, hst'⟩ := addEmoji_ok_inv h
    rw [hst']
    split
    next h7 =>
      intro p hp
      rcases mem_dinsert_inv hp with hh | hh
      · rw [hh]
        exact ⟨rfl, Bool.or_eq_true_iff.mp h7⟩
      · exact hi p hh
    next h7 => exact hi

theorem processLines_ntInv : ∀ (items : List PItem) (st st' : PState),
    processLines st items = Except.ok st' →
    NtInv st.name_table → NtInv st'.name_table := by
  intro items
  induction items with
  | nil =>
    intro st st' h hi
    have : st = st' := by simpa [processLines] using h
    rw [← this]
    exact hi
  | cons it rest ih =>
    intro st st' h hi
    rw [processLines] at h
    obtain ⟨st1, h1, h2⟩ := (bind_eq_ok _ _ _).mp h
    exact ih st1 st' h2 (processItem_ntInv h1 hi)

theorem repoint_lookup {nt : List (List Nat × Emoji)} {lineno : Nat} :
    ∀ {ct ct' : List (List Nat × Emoji)},
    repointTable nt lineno ct = Except.ok ct' →
    ∀ k e, alookup k ct = some e →
      ((e.is_component || e.is_fully_qualified) = true → alookup k ct' = some e) ∧
      ((e.is_component || e.is_fully_qualified) = false →
        ∃ f, alookup e.name nt = some f ∧ alookup k ct' = some f) := by
  intro ct
  induction ct with
  | nil => intro ct' h k e hk; simp [alookup] at hk
  | cons p rest ih =>
    intro ct' h k e hk
    rw [show p = (p.1, p.2) from rfl, repointTable] at h
    rw [show p = (p.1, p.2) from rfl, alookup] at hk
    split at h
    next hcf =>
      obtain ⟨rest', hr, h2⟩ := (bind_eq_ok _ _ _).mp h
      have hct' : ct' = (p.1, p.2) :: rest' := (Option.some.inj (by simpa using h2)).symm
      by_cases hkp : k = p.1
      · rw [if_pos hkp] at hk
        have hpe : p.2 = e := Option.some.inj hk
        subst hpe
        constructor
        · intro _
          rw [hct', alookup, if_pos hkp]
        · intro hf
          rw [hcf] at hf
          simp at hf
      · rw [if_neg hkp] at hk
        have := ih hr k e hk
        rw [hct']
        constructor
        · intro hcc
          rw [alookup, if_neg hkp]
          exact this.1 hcc
        · intro hcc
          obtain ⟨f, hf1, hf2⟩ := this.2 hcc
          exact ⟨f, hf1, by rw [alookup, if_neg hkp]; exact hf2⟩
    next hcf =>
      split at h
      next hlook => simp at h
      next f hlook =>
        obtain ⟨rest', hr, h2⟩ := (bind_eq_ok _ _ _).mp h
        have hct' : ct' = (p.1, f) :: rest' := (Option.some.inj (by simpa using h2)).symm
        by_cases hkp : k = p.1
        · rw [if_pos hkp] at hk
          have hpe : p.2 = e := Option.some.inj hk
          subst hpe
          constructor
          · intro hcc
            rw [hcc] at hcf
            simp at hcf
          · intro _
            exact ⟨f, hlook, by rw [hct', alookup, if_pos hkp]⟩
        · rw [if_neg hkp] at hk
          have := ih hr k e hk
          rw [hct']
          constructor
          · intro hcc
            rw [alookup, if_neg hkp]
            exact this.1 hcc
          · intro hcc
            obtain ⟨f2, hf1, hf2⟩ := this.2 hcc
            exact ⟨f2, hf1, by rw [alookup, if_neg hkp]; exact hf2⟩

theorem runParser_ok_inv {items : List PItem} {nt ct : List (List Nat × Emoji)}
    {gt : GroupDict} (h : runParser items = Except.ok (nt, ct, gt)) :
    ∃ st, processLines initState items = Except.ok st ∧
      nt = st.name_table ∧ gt = flushView st ∧
      repointTable st.name_table st.lineno st.codepoint_table = Except.ok ct := by
  rw [runParser] at h
  obtain ⟨st, h1, h⟩ := (bind_eq_ok _ _ _).mp h
  obtain ⟨ct0, h2, h3⟩ := (bind_eq_ok _ _ _).mp h
  obtain ⟨f1, f2, f3, f4, _⟩ := maybeExit_fields st
  have h4 : (maybeExitSubgroup st).name_table = nt ∧ ct0 = ct ∧
      (maybeExitSubgroup st).group_table = gt := by
    have h5 : ((maybeExitSubgroup st).name_table, ct0, (maybeExitSubgroup st).group_table)
        = (nt, ct, gt) := by simpa using h3
    exact ⟨congrArg (fun t => t.1) h5, congrArg (fun t => t.2.1) h5,
      congrArg (fun t => t.2.2) h5⟩
  refine ⟨st, h1, (f2.symm.trans h4.1).symm, h4.2.2 ▸ rfl, ?_⟩
  rw [← h4.2.1]
  rw [f1, f2, f3] at h2
  exact h2

/-- C3: amended.  In every successful parse, each declared codepoint
sequence whose entry is neither component nor fully-qualified ends up,
in the codepoint table, pointing at the name-table entry of the same
canonical name — an entry that is component or fully-qualified (the
code picks whatever the name table holds, which may be a same-named
component, not necessarily a fully-qualified entry); if the name table
has no entry of that name the parse fails, so success guarantees the
peer exists. -/
theorem c3_repoint : ∀ (items : List PItem) (nt ct : List (List Nat × Emoji))
    (gt : GroupDict), runParser items = Except.ok (nt, ct, gt) →
    ∀ e : Emoji, PItem.emoji e ∈ items →
      e.is_component = false → e.is_fully_qualified = false →
      ∃ f, alookup e.name nt = some f ∧ alookup e.codepoints ct = some f ∧
        f.name = e.name ∧ (f.is_component = true ∨ f.is_fully_qualified = true) := by
  intro items nt ct gt h e hmem hc hf
  obtain ⟨st, h1, hnt, hgt, hrep⟩ := runParser_ok_inv h
  have hctm := processLines_ct_mem items initState st h1 e hmem
  obtain ⟨f, hf1, hf2⟩ := (repoint_lookup hrep e.codepoints e hctm).2 (by rw [hc, hf]; rfl)
  have hni := processLines_ntInv items initState st h1
    (by intro p hp; simp [initState] at hp)
  have hprops := hni _ (alookup_mem hf1)
  exact ⟨f, by rw [hnt]; exact hf1, hf2, hprops.1.symm, hprops.2⟩

/-- C3 witness: in the parse of `exSelectSource`, the unqualified
`chequered flag` sequence points at the fully-qualified entry of the
same name in both tables. -/
theorem c3_repoint_witness :
    ∃ f, alookup (to_name (pystr "chequered flag"))
        (regNtOf (runParser exSelectSource)) = some f ∧
      alookup [0x1F3C1, 0xFE0F] (regCtOf (runParser exSelectSource)) = some f ∧
      f.name = to_name (pystr "chequered flag") ∧
      (f.is_component = true ∨ f.is_fully_qualified = true) :=
  c3_repoint exSelectSource (regNtOf (runParser exSelectSource))
    (regCtOf (runParser exSelectSource)) (regGtOf (runParser exSelectSource))
    (by rfl)
    (Emoji.of (pystr "chequered flag") [0x1F3C1, 0xFE0F]
      (some Status.unqualified) (some (pystr "0.6")))
    (by decide) (by decide) (by decide)

/-- C3 counterexample: a valid source in which the minimally-qualified
sequence `[2]` is named like the component `alpha` and has no
fully-qualified peer; the claim demands a fatal error, yet the parse
succeeds and the codepoint-table lookup yields the component (not a
fully-qualified entry). -/
theorem c3_component_peer_cex :
    (runParser exComponentPeerSource).isOk = true ∧
    ctStatusAt (runParser exComponentPeerSource) [2] = some (some Status.component) := by
  decide

theorem alookup_append_none {α β : Type} [DecidableEq α] {k : α}
    {l : List (α × β)} (l' : List (α × β)) (h : alookup k l = none) :
    alookup k (l ++ l') = alookup k l' := by
  induction l with
  | nil => simp
  | cons p rest ih =>
    rw [show p = (p.1, p.2) from rfl] at h ⊢
    by_cases hk : k = p.1
    · rw [alookup, if_pos hk] at h; simp at h
    · rw [alookup, if_neg hk] at h
      rw [List.cons_append, alookup, if_neg hk]
      exact ih h

theorem alookup_updFirst_some {α β : Type} [DecidableEq α] {k k' : α} (f : β → β)
    {l : List (α × β)} {v : β} (h : alookup k l = some v) :
    ∃ v', alookup k (updFirst k' f l) = some v' := by
  by_cases hk : k = k'
  · subst hk
    exact ⟨f v, alookup_updFirst_self f h⟩
  · exact ⟨v, by rw [alookup_updFirst_ne f l hk]; exact h⟩

theorem subTotal_dinsert (k : List Nat) (l : List Emoji) (sgs : SubgroupDict) :
    subTotal (dinsert k l sgs) + ((alookup k sgs).getD []).length =
      subTotal sgs + l.length := by
  induction sgs with
  | nil => simp [dinsert, subTotal, alookup]
  | cons p rest ih =>
    rw [show p = (p.1, p.2) from rfl, dinsert]
    by_cases hk : p.1 = k
    · rw [if_pos hk, show p = (p.1, p.2) from rfl, alookup, if_pos hk.symm]
      simp [subTotal]
      omega
    · have hne : ¬ k = p.1 := fun hh => hk hh.symm
      rw [if_neg hk, show p = (p.1, p.2) from rfl, alookup, if_neg hne]
      simp only [subTotal, List.map_cons, List.sum_cons] at ih ⊢
      omega

theorem totalCount_updFirst {g : List Nat} {gt : GroupDict} {sgs : SubgroupDict}
    (h : alookup g gt = some sgs) (f : SubgroupDict → SubgroupDict) :
    totalCount (updFirst g f gt) + subTotal sgs =
      totalCount gt + subTotal (f sgs) := by
  induction gt with
  | nil => simp [alookup] at h
  | cons p rest ih =>
    rw [show p = (p.1, p.2) from rfl, updFirst]
    by_cases hk : p.1 = g
    · rw [if_pos hk]
      rw [show p = (p.1, p.2) from rfl, alookup, if_pos hk.symm] at h
      have : p.2 = sgs := Option.some.inj h
      subst this
      simp only [totalCount, List.map_cons, List.sum_cons]
      omega
    · have hne : ¬ g = p.1 := fun hh => hk hh.symm
      rw [if_neg hk]
      rw [show p = (p.1, p.2) from rfl, alookup, if_neg hne] at h
      have := ih h
      simp only [totalCount, List.map_cons, List.sum_cons] at this ⊢
      omega

theorem totalCount_append (gt l' : GroupDict) :
    totalCount (gt ++ l') = totalCount gt + totalCount l' := by
  simp [totalCount]


theorem flushView_of_none {st : PState} (h : st.subgroup_name = none) :
    flushView st = st.group_table := by
  rw [flushView, maybeExitSubgroup, h]

theorem flushView_of_some {st : PState} {sn g : List Nat} {l : List Emoji}
    (hsn : st.subgroup_name = some sn) (hg : st.group_name = some g)
    (hl : st.subgroup = some l) :
    flushView st = updFirst g (fun sgs => dinsert sn l sgs) st.group_table := by
  rw [flushView, maybeExitSubgroup, hsn, hg, hl]

theorem processItem_group_inv {st : PState} {g : List Nat} {st' : PState}
    (h : processItem st (PItem.group g) = Except.ok st') :
    st' = enterGroup (maybeExitSubgroup st) g :=
  (Except.ok.inj h).symm

theorem processItem_subgroup_inv {st : PState} {sg : List Nat} {st' : PState}
    (h : processItem st (PItem.subgroup sg) = Except.ok st') :
    ∃ g, st.group_name = some g ∧
      st' = { maybeExitSubgroup st with
        subgroup_name := some sg
        subgroup := some ((alookup sg (curGroupDict (maybeExitSubgroup st))).getD []) } := by
  rw [processItem, enterSubgroup] at h
  split at h
  next hng => simp at h
  next hng =>
    have hg : ∃ g, (maybeExitSubgroup st).group_name = some g := by
      cases hh : (maybeExitSubgroup st).group_name with
      | none => rw [hh] at hng; simp at hng
      | some g => exact ⟨g, rfl⟩
    obtain ⟨g, hg⟩ := hg
    refine ⟨g, by rw [← (maybeExit_fields st).2.2.2.1]; exact hg, ?_⟩
    exact (Except.ok.inj h).symm

theorem wf_step {st : PState} {it : PItem} {st' : PState}
    (h : processItem st it = Except.ok st') (hw : WfState st) : WfState st' := by
  obtain ⟨w1, w2, w3, w4⟩ := hw
  cases it with
  | blank =>
    have : st = st' := by simpa [processItem] using h
    rw [← this]
    exact ⟨w1, w2, w3, w4⟩
  | group g =>
    rw [processItem_group_inv h]
    obtain ⟨f1, f2, f3, f4, f5⟩ := maybeExit_fields st
    have hsubn : (maybeExitSubgroup st).subgroup = none := maybeExit_subgroup_none st w1
    refine ⟨fun _ => ?_, fun sn hsn => ?_, fun g0 hg0 => ?_, fun sn g0 l hsn => ?_⟩
    · rw [enterGroup]
      exact hsubn
    · rw [enterGroup] at hsn
      rw [f5] at hsn
      simp at hsn
    · rw [enterGroup] at hg0 ⊢
      simp only at hg0 ⊢
      have hgg : g0 = g := (by simpa using hg0 : g = g0).symm
      subst hgg
      by_cases hpres : (alookup g0 (maybeExitSubgroup st).group_table).isSome = true
      · rw [if_pos hpres]
        cases hh : alookup g0 (maybeExitSubgroup st).group_table with
        | none => rw [hh] at hpres; simp at hpres
        | some sgs => exact ⟨sgs, rfl⟩
      · rw [if_neg hpres]
        have hnone : alookup g0 (maybeExitSubgroup st).group_table = none := by
          cases hh : alookup g0 (maybeExitSubgroup st).group_table with
          | none => rfl
          | some sgs => rw [hh] at hpres; simp at hpres
        refine ⟨[], ?_⟩
        rw [alookup_append_none _ hnone, alookup, if_pos rfl]
    · rw [enterGroup] at hsn
      rw [f5] at hsn
      simp at hsn
  | subgroup sg =>
    obtain ⟨g, hgname, hst'⟩ := processItem_subgroup_inv h
    obtain ⟨f1, f2, f3, f4, f5⟩ := maybeExit_fields st
    rw [hst']
    refine ⟨fun hh => by simp at hh, fun sn hsn => ?_, fun g0 hg0 => ?_,
      fun sn g0 l hsn hg0 hl => ?_⟩
    · exact ⟨⟨_, rfl⟩, g, by simp only; rw [f4]; exact hgname⟩
    · simp only at hg0 ⊢
      rw [f4] at hg0
      obtain ⟨sgs0, hsgs0⟩ := w3 g0 hg0
      have : alookup g0 (maybeExitSubgroup st).group_table =
          alookup g0 (flushView st) := by rw [flushView]
      cases hsg : st.subgroup_name with
      | none =>
        rw [this, flushView_of_none hsg]
        exact ⟨sgs0, hsgs0⟩
      | some sn1 =>
        obtain ⟨⟨l1, hl1⟩, ⟨g1, hg1⟩⟩ := w2 sn1 hsg
        rw [this, flushView_of_some hsg hg1 hl1]
        exact alookup_updFirst_some _ hsgs0
    · simp only at hsn hg0 hl
      have hsneq : sn = sg := by
        have := hsn
        simp only at this
        exact (by simpa using this : sg = sn).symm
      subst hsneq
      rw [f4] at hg0
      have hgeq : g0 = g := by
        rw [hgname] at hg0
        exact (by simpa using hg0 : g = g0).symm
      subst hgeq
      intro v hv x hx
      have hl2 : l = (alookup sn (curGroupDict (maybeExitSubgroup st))).getD [] := by
        simpa using hl.symm
      have hcur : curGroupDict (maybeExitSubgroup st) =
          (alookup g0 (maybeExitSubgroup st).group_table).getD [] := by
        rw [curGroupDict, f4, hgname]
      rw [hl2, hcur, hv]
      simpa using hx
  | emoji e =>
    obtain ⟨hsub, hfresh, hname, hgrp, hst'⟩ := addEmoji_ok_inv h
    obtain ⟨sn0, hsn0⟩ := Option.isSome_iff_exists.mp hsub
    obtain ⟨⟨l0, hl0⟩, ⟨g0, hg0⟩⟩ := w2 sn0 hsn0
    rw [hst']
    split
    · refine ⟨fun hh => ?_, fun sn hsn => ?_, fun g1 hg1 => ?_,
        fun sn g1 l hsn hg1 hl => ?_⟩
      · simp only at hh
        rw [hsn0] at hh
        simp at hh
      · exact ⟨⟨_, rfl⟩, g0, hg0⟩
      · exact w3 g1 hg1
      · simp only at hsn hg1 hl
        intro v hv x hx
        have hle : l = st.subgroup.getD [] ++ [e] := by simpa using hl.symm
        rw [hle]
        refine List.mem_append_left _ ?_
        rw [hl0]
        exact w4 sn g1 l0 hsn hg1 hl0 v hv x hx
    · refine ⟨fun hh => ?_, fun sn hsn => ?_, fun g1 hg1 => ?_,
        fun sn g1 l hsn hg1 hl => ?_⟩
      · simp only at hh
        rw [hsn0] at hh
        simp at hh
      · exact ⟨⟨l0, hl0⟩, g0, hg0⟩
      · exact w3 g1 hg1
      · exact w4 sn g1 l hsn hg1 hl

theorem flushView_congr {st st' : PState} (h1 : st'.subgroup_name = st.subgroup_name)
    (h2 : st'.group_name = st.group_name) (h3 : st'.subgroup = st.subgroup)
    (h4 : st'.group_table = st.group_table) : flushView st' = flushView st := by
  rw [flushView, flushView, maybeExitSubgroup, maybeExitSubgroup, h1, h2, h3]
  cases hs : st.subgroup_name with
  | none => exact h4
  | some sn =>
    cases hg : st.group_name <;> cases hb : st.subgroup <;> simp only <;> rw [h4]

theorem count_grow {g sn : List Nat} {gt : GroupDict} {sgs : SubgroupDict}
    (h : alookup g gt = some sgs) (l : List Emoji) (e : Emoji) :
    totalCount (updFirst g (fun s => dinsert sn (l ++ [e]) s) gt) =
      totalCount (updFirst g (fun s => dinsert sn l s) gt) + 1 := by
  have ht1 := totalCount_updFirst h (fun s => dinsert sn l s)
  have ht2 := totalCount_updFirst h (fun s => dinsert sn (l ++ [e]) s)
  simp only at ht1 ht2
  have ht3 := subTotal_dinsert sn l sgs
  have ht4 := subTotal_dinsert sn (l ++ [e]) sgs
  have hlen : (l ++ [e]).length = l.length + 1 := by simp
  omega

theorem count_keep {g sn : List Nat} {gt : GroupDict} {sgs : SubgroupDict}
    (h : alookup g gt = some sgs) :
    totalCount (updFirst g (fun s => dinsert sn ((alookup sn sgs).getD []) s) gt) =
      totalCount gt := by
  have ht1 := totalCount_updFirst h (fun s => dinsert sn ((alookup sn sgs).getD []) s)
  simp only at ht1
  have ht2 := subTotal_dinsert sn ((alookup sn sgs).getD []) sgs
  omega

theorem count_step {st : PState} {it : PItem} {st' : PState}
    (h : processItem st it = Except.ok st') (hw : WfState st) :
    totalCount (flushView st') =
      totalCount (flushView st) + (if isCompFqItem it then 1 else 0) := by
  obtain ⟨w1, w2, w3, w4⟩ := hw
  cases it with
  | blank =>
    have : st = st' := by simpa [processItem] using h
    rw [← this, show isCompFqItem PItem.blank = false from rfl, if_neg (by simp),
      Nat.add_zero]
  | group g =>
    rw [processItem_group_inv h]
    have hsubn : (enterGroup (maybeExitSubgroup st) g).subgroup_name = none := by
      rw [enterGroup]
      exact (maybeExit_fields st).2.2.2.2
    rw [flushView_of_none hsubn,
      show isCompFqItem (PItem.group g) = false from rfl, if_neg (by simp), Nat.add_zero]
    rw [enterGroup]
    simp only
    split
    · rw [flushView]
    · rw [totalCount_append, flushView]
      simp [totalCount, subTotal]
  | subgroup sg =>
    obtain ⟨g, hgname, hst'⟩ := processItem_subgroup_inv h
    obtain ⟨f1, f2, f3, f4, f5⟩ := maybeExit_fields st
    -- the current group's subgroup dict in the flushed table
    obtain ⟨sgs0, hsgs0⟩ := w3 g hgname
    have hg : ∃ sgs, alookup g (maybeExitSubgroup st).group_table = some sgs := by
      cases hsg : st.subgroup_name with
      | none =>
        rw [show (maybeExitSubgroup st).group_table = flushView st from rfl,
          flushView_of_none hsg]
        exact ⟨sgs0, hsgs0⟩
      | some sn1 =>
        obtain ⟨⟨l1, hl1⟩, ⟨g1, hg1⟩⟩ := w2 sn1 hsg
        rw [show (maybeExitSubgroup st).group_table = flushView st from rfl,
          flushView_of_some hsg hg1 hl1]
        exact alookup_updFirst_some _ hsgs0
    obtain ⟨sgs, hsgs⟩ := hg
    have hfv' : flushView st' =
        updFirst g (fun s => dinsert sg ((alookup sg sgs).getD []) s)
          (maybeExitSubgroup st).group_table := by
      have hsn' : st'.subgroup_name = some sg := by rw [hst']
      have hgn' : st'.group_name = some g := by
        rw [hst']
        simp only
        rw [f4]
        exact hgname
      have hsb' : st'.subgroup =
          some ((alookup sg (curGroupDict (maybeExitSubgroup st))).getD []) := by
        rw [hst']
      have hgt' : st'.group_table = (maybeExitSubgroup st).group_table := by rw [hst']
      rw [flushView_of_some hsn' hgn' hsb', hgt']
      have hcur : curGroupDict (maybeExitSubgroup st) = sgs := by
        rw [curGroupDict, f4, hgname]
        show (alookup g (maybeExitSubgroup st).group_table).getD [] = sgs
        rw [hsgs]
        rfl
      rw [hcur]
    rw [hfv', count_keep hsgs,
      show flushView st = (maybeExitSubgroup st).group_table from rfl,
      show isCompFqItem (PItem.subgroup sg) = false from rfl, if_neg (by simp)]
    omega
  | emoji e =>
    obtain ⟨hsub, hfresh, hname, hgrp, hst'⟩ := addEmoji_ok_inv h
    obtain ⟨sn0, hsn0⟩ := Option.isSome_iff_exists.mp hsub
    obtain ⟨⟨l0, hl0⟩, ⟨g0, hg0⟩⟩ := w2 sn0 hsn0
    obtain ⟨sgs, hsgs⟩ := w3 g0 hg0
    rw [hst']
    have hcf : isCompFqItem (PItem.emoji e) = (e.is_component || e.is_fully_qualified) := rfl
    split
    next h7 =>
      have hfv1 : flushView st = updFirst g0 (fun s => dinsert sn0 l0 s) st.group_table :=
        flushView_of_some hsn0 hg0 hl0
      have hfv2 : flushView { st with
          codepoint_table := dinsert e.codepoints e st.codepoint_table,
          name_table := dinsert e.name e st.name_table,
          subgroup := some (st.subgroup.getD [] ++ [e]) } =
          updFirst g0 (fun s => dinsert sn0 (l0 ++ [e]) s) st.group_table := by
        refine flushView_of_some (by simpa using hsn0) (by simpa using hg0) ?_
        simp only
        rw [hl0]
        rfl
      rw [hfv1, hfv2, hcf, h7, count_grow hsgs l0 e, if_pos rfl]
    next h7 =>
      have hfv : flushView { st with
          codepoint_table := dinsert e.codepoints e st.codepoint_table } =
          flushView st := flushView_congr rfl rfl rfl rfl
      rw [hfv, hcf]
      have : (e.is_component || e.is_fully_qualified) = false := by
        cases hb : (e.is_component || e.is_fully_qualified)
        · rfl
        · exact absurd hb h7
      rw [this]
      simp

theorem wf_lineno (st : PState) (n : Nat) :
    WfState st → WfState { st with lineno := n } := by
  intro ⟨w1, w2, w3, w4⟩
  exact ⟨w1, w2, w3, w4⟩

theorem processLines_wf_count : ∀ (items : List PItem) (st st' : PState),
    processLines st items = Except.ok st' → WfState st →
    WfState st' ∧ totalCount (flushView st') =
      totalCount (flushView st) + countCompFq items := by
  intro items
  induction items with
  | nil =>
    intro st st' h hw
    have : st = st' := by simpa [processLines] using h
    rw [← this]
    exact ⟨hw, by simp [countCompFq]⟩
  | cons it rest ih =>
    intro st st' h hw
    rw [processLines] at h
    obtain ⟨st1, h1, h2⟩ := (bind_eq_ok _ _ _).mp h
    have hwb : WfState { st with lineno := st.lineno + 1 } := wf_lineno st _ hw
    have hw1 := wf_step h1 hwb
    have hc1 := count_step h1 hwb
    obtain ⟨hw', hc'⟩ := ih st1 st' h2 hw1
    refine ⟨hw', ?_⟩
    rw [hc', hc1, flushView_lineno]
    have : countCompFq (it :: rest) = (if isCompFqItem it then 1 else 0) + countCompFq rest := by
      rw [countCompFq, countCompFq, List.filter]
      cases hb : isCompFqItem it <;> simp [Nat.add_comm]
    rw [this]
    omega

theorem selectAll_length (gt : GroupDict) : (selectAll gt).length = totalCount gt := by
  rw [selectAll, totalCount]
  induction gt with
  | nil => rfl
  | cons p rest ih =>
    simp only [List.map_cons, List.flatten_cons, List.sum_cons, List.length_append, ih,
      subTotal]
    congr 1
    rw [List.length_flatten]
    congr 1
    rw [List.map_map]
    rfl

/-- C6: confirmed.  For every registry built from a valid source, the
`ALL` selector returns a list whose length is exactly the number of
component plus fully-qualified data lines in the source. -/
theorem c6_select_all_count : ∀ (items : List PItem) (nt ct : List (List Nat × Emoji))
    (gt : GroupDict), runParser items = Except.ok (nt, ct, gt) →
    (selectAll gt).length = countCompFq items := by
  intro items nt ct gt h
  obtain ⟨st, h1, _, hgt, _⟩ := runParser_ok_inv h
  have hwinit : WfState initState := by
    refine ⟨fun _ => rfl, fun sn hsn => ?_, fun g hg => ?_, fun sn g l hsn => ?_⟩
    · simp [initState] at hsn
    · simp [initState] at hg
    · simp [initState] at hsn
  obtain ⟨_, hcount⟩ := processLines_wf_count items initState st h1 hwinit
  rw [hgt, selectAll_length, hcount]
  have : totalCount (flushView initState) = 0 := rfl
  rw [this]
  omega

/-- C6 witness: the theorem applied to the concrete `exSelectSource`,
whose four component/fully-qualified lines yield a four-element `ALL`
selection. -/
theorem c6_select_all_count_witness :
    (selectAll (regGtOf (runParser exSelectSource))).length =
      countCompFq exSelectSource :=
  c6_select_all_count exSelectSource (regNtOf (runParser exSelectSource))
    (regCtOf (runParser exSelectSource)) (regGtOf (runParser exSelectSource)) (by rfl)


theorem inGroup_append {gt : GroupDict} {c : List Nat} {e : Emoji}
    (h : inGroup gt c e) (l' : GroupDict) : inGroup (gt ++ l') c e := by
  obtain ⟨sgs, hm, p, hp, he⟩ := h
  exact ⟨sgs, List.mem_append_left _ hm, p, hp, he⟩

theorem cg_flushView {st : PState} (hw : WfState st)
    (hcg : ∀ gp : List Nat × SubgroupDict, gp ∈ st.group_table →
      ∀ sp : List Nat × List Emoji, sp ∈ gp.2 → ∀ e : Emoji, e ∈ sp.2 →
        (e.is_component = true ↔ gp.1 = pystr "component"))
    (hcur : ∀ l, st.subgroup = some l → ∀ e : Emoji, e ∈ l →
      (e.is_component = true ↔ st.group_name = some (pystr "component"))) :
    ∀ gp : List Nat × SubgroupDict, gp ∈ flushView st →
      ∀ sp : List Nat × List Emoji, sp ∈ gp.2 → ∀ e : Emoji, e ∈ sp.2 →
        (e.is_component = true ↔ gp.1 = pystr "component") := by
  obtain ⟨w1, w2, w3, w4⟩ := hw
  cases hsg : st.subgroup_name with
  | none =>
    rw [flushView_of_none hsg]
    exact hcg
  | some sn =>
    obtain ⟨⟨l, hl⟩, ⟨g, hg⟩⟩ := w2 sn hsg
    rw [flushView_of_some hsg hg hl]
    intro gp hgp sp hsp e he
    rcases mem_updFirst_inv hgp with h1 | ⟨v, hv, h2⟩
    · exact hcg gp h1 sp hsp e he
    · subst h2
      rcases mem_dinsert_inv hsp with h3 | h3
      · subst h3
        have := hcur l hl e he
        rw [hg] at this
        simpa using this
      · exact hcg (g, v) (alookup_mem hv) sp h3 e he

theorem inGroup_enterSub {gt : GroupDict} {g sg : List Nat} {sgs1 : SubgroupDict}
    (hg : alookup g gt = some sgs1) {c : List Nat} {e : Emoji}
    (h : inGroup gt c e) :
    inGroup (updFirst g (fun s => dinsert sg ((alookup sg sgs1).getD []) s) gt) c e := by
  obtain ⟨sgs, hm, p, hp, he⟩ := h
  rcases mem_updFirst_fwd g (fun s => dinsert sg ((alookup sg sgs1).getD []) s) hm with
    h1 | ⟨h1, h2⟩
  · exact ⟨sgs, h1, p, hp, he⟩
  · simp only at h1 h2
    subst h1
    have hsgs : sgs1 = sgs := by
      rw [h2] at hg
      exact (Option.some.inj hg).symm
    subst hsgs
    have hmem' := updFirst_mem_self (fun s => dinsert sg ((alookup sg sgs1).getD []) s) h2
    simp only at hmem'
    rcases mem_dinsert_fwd sg ((alookup sg sgs1).getD []) hp with h3 | ⟨h3, h4⟩
    · exact ⟨_, hmem', p, h3, he⟩
    · refine ⟨_, hmem', (sg, (alookup sg sgs1).getD []), mem_dinsert_self _ _ _, ?_⟩
      rw [h4]
      exact he

theorem inGroup_growSub {gt : GroupDict} {g sn : List Nat} {l l' : List Emoji}
    (hsub : ∀ x, x ∈ l → x ∈ l')
    (hold : ∀ v, alookup sn ((alookup g gt).getD []) = some v → ∀ x, x ∈ v → x ∈ l)
    {c : List Nat} {e : Emoji}
    (h : inGroup (updFirst g (fun s => dinsert sn l s) gt) c e) :
    inGroup (updFirst g (fun s => dinsert sn l' s) gt) c e := by
  obtain ⟨sgs', hm, p, hp, he⟩ := h
  rcases mem_updFirst_inv hm with h1 | ⟨v, hv, h2⟩
  · rcases mem_updFirst_fwd g (fun s => dinsert sn l' s) h1 with h3 | ⟨h3, h4⟩
    · exact ⟨sgs', h3, p, hp, he⟩
    · simp only at h3 h4
      subst h3
      have hmem' := updFirst_mem_self (fun s => dinsert sn l' s) h4
      simp only at hmem'
      rcases mem_dinsert_fwd sn l' hp with h5 | ⟨h5, h6⟩
      · exact ⟨_, hmem', p, h5, he⟩
      · have hev : e ∈ l := by
          refine hold p.2 ?_ e he
          rw [h4]
          exact h6
        exact ⟨_, hmem', (sn, l'), mem_dinsert_self _ _ _, hsub e hev⟩
  · simp only [Prod.mk.injEq] at h2
    obtain ⟨hc1, hc2⟩ := h2
    subst hc1
    subst hc2
    have hmem' := updFirst_mem_self (fun s => dinsert sn l' s) hv
    simp only at hmem'
    rcases mem_dinsert_inv hp with h3 | h3
    · subst h3
      exact ⟨_, hmem', (sn, l'), mem_dinsert_self _ _ _, hsub e he⟩
    · rcases mem_dinsert_fwd sn l' h3 with h4 | ⟨h4, h5⟩
      · exact ⟨_, hmem', p, h4, he⟩
      · have hev : e ∈ l := by
          refine hold p.2 ?_ e he
          rw [hv]
          exact h5
        exact ⟨_, hmem', (sn, l'), mem_dinsert_self _ _ _, hsub e hev⟩

theorem repoint_mem {nt : List (List Nat × Emoji)} {lineno : Nat} :
    ∀ {ct ct' : List (List Nat × Emoji)},
    repointTable nt lineno ct = Except.ok ct' →
    ∀ p : List Nat × Emoji, p ∈ ct' → p.2 ∈ ct.map (fun q => q.2) ∨
      ∃ n, (n, p.2) ∈ nt := by
  intro ct
  induction ct with
  | nil =>
    intro ct' h p hp
    have : ct' = [] := (Except.ok.inj h).symm
    subst this
    simp at hp
  | cons q rest ih =>
    intro ct' h p hp
    rw [show q = (q.1, q.2) from rfl, repointTable] at h
    split at h
    next hcf =>
      obtain ⟨rest', hr, h2⟩ := (bind_eq_ok _ _ _).mp h
      have hct' : ct' = (q.1, q.2) :: rest' := (Except.ok.inj h2).symm
      subst hct'
      rcases List.mem_cons.mp hp with h3 | h3
      · left
        rw [h3]
        simp
      · rcases ih hr p h3 with h4 | h4
        · left
          simp only [List.map_cons]
          exact List.mem_cons_of_mem _ h4
        · exact Or.inr h4
    next hcf =>
      split at h
      next hlook => simp at h
      next f hlook =>
        obtain ⟨rest', hr, h2⟩ := (bind_eq_ok _ _ _).mp h
        have hct' : ct' = (q.1, f) :: rest' := (Except.ok.inj h2).symm
        subst hct'
        rcases List.mem_cons.mp hp with h3 | h3
        · right
          refine ⟨q.2.name, ?_⟩
          rw [h3]
          exact alookup_mem hlook
        · rcases ih hr p h3 with h4 | h4
          · left
            simp only [List.map_cons]
            exact List.mem_cons_of_mem _ h4
          · exact Or.inr h4

theorem updFirst_no_key {α β : Type} [DecidableEq α] {k : α} (f : β → β) :
    ∀ {l : List (α × β)}, alookup k l = none → updFirst k f l = l := by
  intro l
  induction l with
  | nil => intro _; rfl
  | cons q rest ih =>
    intro h
    rw [show q = (q.1, q.2) from rfl, alookup] at h
    rw [show q = (q.1, q.2) from rfl, updFirst]
    split at h
    next he => simp at h
    next he => rw [if_neg (fun hh => he hh.symm), ih h]

theorem compInv_lineno (st : PState) (n : Nat) (hc : CompInv st) :
    CompInv { st with lineno := n } := by
  obtain ⟨c1, c2, c3, c4⟩ := hc
  refine ⟨c1, c2, ?_, ?_⟩
  · intro p hp hcomp
    rw [flushView_lineno]
    exact c3 p hp hcomp
  · intro p hp hcomp
    rw [flushView_lineno]
    exact c4 p hp hcomp

theorem compInv_init : CompInv initState := by
  refine ⟨?_, ?_, ?_, ?_⟩ <;> intro _ h <;> simp [initState] at h

theorem compInv_step {st : PState} {it : PItem} {st' : PState}
    (h : processItem st it = Except.ok st') (hw : WfState st) (hc : CompInv st) :
    CompInv st' := by
  obtain ⟨w1, w2, w3, w4⟩ := hw
  obtain ⟨c1, c2, c3, c4⟩ := hc
  have hcf := cg_flushView ⟨w1, w2, w3, w4⟩ c1 c2
  cases it with
  | blank =>
    have : st = st' := by simpa [processItem] using h
    rw [← this]
    exact ⟨c1, c2, c3, c4⟩
  | group g =>
    rw [processItem_group_inv h]
    obtain ⟨f1, f2, f3, f4, f5⟩ := maybeExit_fields st
    have hsubn : (maybeExitSubgroup st).subgroup = none := maybeExit_subgroup_none st w1
    have f5' : (enterGroup (maybeExitSubgroup st) g).subgroup_name = none := f5
    have hgt : (enterGroup (maybeExitSubgroup st) g).group_table =
        if (alookup g (maybeExitSubgroup st).group_table).isSome then
          (maybeExitSubgroup st).group_table
        else (maybeExitSubgroup st).group_table ++ [(g, [])] := rfl
    refine ⟨?_, ?_, ?_, ?_⟩
    · intro gp hgp sp hsp e he
      rw [hgt] at hgp
      split at hgp
      · exact hcf gp hgp sp hsp e he
      · rcases List.mem_append.mp hgp with h1 | h1
        · exact hcf gp h1 sp hsp e he
        · have hge : gp = (g, []) := by simpa using h1
          rw [hge] at hsp
          simp at hsp
    · intro l hl e he
      have hsub' : (enterGroup (maybeExitSubgroup st) g).subgroup = none := hsubn
      rw [hsub'] at hl
      simp at hl
    · intro p hp hcomp
      have hp' : p ∈ (maybeExitSubgroup st).name_table := hp
      rw [f2] at hp'
      rw [flushView_of_none f5', hgt]
      split
      · exact c3 p hp' hcomp
      · exact inGroup_append (c3 p hp' hcomp) _
    · intro p hp hcomp
      have hp' : p ∈ (maybeExitSubgroup st).codepoint_table := hp
      rw [f1] at hp'
      rw [flushView_of_none f5', hgt]
      split
      · exact c4 p hp' hcomp
      · exact inGroup_append (c4 p hp' hcomp) _
  | subgroup sg =>
    obtain ⟨g, hgname, hst'⟩ := processItem_subgroup_inv h
    obtain ⟨f1, f2, f3, f4, f5⟩ := maybeExit_fields st
    have hmidg : (maybeExitSubgroup st).group_name = some g := by rw [f4]; exact hgname
    have e1 : st'.group_table = (maybeExitSubgroup st).group_table := by rw [hst']
    have e2 : st'.subgroup_name = some sg := by rw [hst']
    have e3 : st'.subgroup =
        some ((alookup sg (curGroupDict (maybeExitSubgroup st))).getD []) := by rw [hst']
    have e4 : st'.group_name = (maybeExitSubgroup st).group_name := by rw [hst']
    have e5 : st'.name_table = st.name_table := by rw [hst']; exact f2
    have e6 : st'.codepoint_table = st.codepoint_table := by rw [hst']; exact f1
    have hcopy : (alookup sg (curGroupDict (maybeExitSubgroup st))).getD [] =
        (alookup sg ((alookup g (maybeExitSubgroup st).group_table).getD [])).getD [] := by
      rw [curGroupDict, hmidg]
    have hg' : st'.group_name = some g := by rw [e4]; exact hmidg
    refine ⟨?_, ?_, ?_, ?_⟩
    · intro gp hgp sp hsp e he
      rw [e1] at hgp
      exact hcf gp hgp sp hsp e he
    · intro l hl e he
      rw [e3, hcopy] at hl
      have hlcopy := Option.some.inj hl
      rw [e4, hmidg]
      cases halk2 : alookup g (maybeExitSubgroup st).group_table with
      | none =>
        rw [halk2, Option.getD_none] at hlcopy
        simp only [alookup, Option.getD_none] at hlcopy
        rw [← hlcopy] at he
        simp at he
      | some sgs =>
        rw [halk2, Option.getD_some] at hlcopy
        cases halk : alookup sg sgs with
        | none =>
          rw [halk, Option.getD_none] at hlcopy
          rw [← hlcopy] at he
          simp at he
        | some v =>
          rw [halk, Option.getD_some] at hlcopy
          have hx := hcf (g, sgs) (alookup_mem halk2) (sg, v) (alookup_mem halk) e
            (by rw [hlcopy]; exact he)
          simpa using hx
    · intro p hp hcomp
      rw [e5] at hp
      have hfv : flushView st' = updFirst g
          (fun sgs => dinsert sg
            ((alookup sg (curGroupDict (maybeExitSubgroup st))).getD []) sgs)
          (maybeExitSubgroup st).group_table := by
        rw [flushView_of_some e2 hg' e3, e1]
      rw [hfv, hcopy]
      cases halk2 : alookup g (maybeExitSubgroup st).group_table with
      | none =>
        rw [updFirst_no_key _ halk2]
        exact c3 p hp hcomp
      | some sgs =>
        simp only [Option.getD_some]
        exact inGroup_enterSub halk2 (c3 p hp hcomp)
    · intro p hp hcomp
      rw [e6] at hp
      have hfv : flushView st' = updFirst g
          (fun sgs => dinsert sg
            ((alookup sg (curGroupDict (maybeExitSubgroup st))).getD []) sgs)
          (maybeExitSubgroup st).group_table := by
        rw [flushView_of_some e2 hg' e3, e1]
      rw [hfv, hcopy]
      cases halk2 : alookup g (maybeExitSubgroup st).group_table with
      | none =>
        rw [updFirst_no_key _ halk2]
        exact c4 p hp hcomp
      | some sgs =>
        simp only [Option.getD_some]
        exact inGroup_enterSub halk2 (c4 p hp hcomp)
  | emoji e0 =>
    have h' : addEmoji st e0 = Except.ok st' := h
    obtain ⟨ha1, ha2, ha3, ha4, ha5⟩ := addEmoji_ok_inv h'
    cases hsn : st.subgroup_name with
    | none =>
      rw [hsn] at ha1
      simp at ha1
    | some sn =>
      obtain ⟨⟨l, hl⟩, ⟨g0, hg0⟩⟩ := w2 sn hsn
      have hgetd : st.subgroup.getD [] = l := by rw [hl, Option.getD_some]
      by_cases hq : (e0.is_component || e0.is_fully_qualified) = true
      · rw [if_pos hq] at ha5
        have e1 : st'.group_table = st.group_table := by rw [ha5]
        have e2 : st'.subgroup_name = some sn := by rw [ha5]; exact hsn
        have e3 : st'.group_name = st.group_name := by rw [ha5]
        have e4 : st'.subgroup = some (st.subgroup.getD [] ++ [e0]) := by rw [ha5]
        rw [hgetd] at e4
        have e5 : st'.name_table = dinsert e0.name e0 st.name_table := by rw [ha5]
        have e6 : st'.codepoint_table = dinsert e0.codepoints e0 st.codepoint_table := by
          rw [ha5]
        have hg0' : st'.group_name = some g0 := by rw [e3]; exact hg0
        have hfva : flushView st' =
            updFirst g0 (fun sgs => dinsert sn (l ++ [e0]) sgs) st.group_table := by
          rw [flushView_of_some e2 hg0' e4, e1]
        have hfvs : flushView st =
            updFirst g0 (fun sgs => dinsert sn l sgs) st.group_table :=
          flushView_of_some hsn hg0 hl
        refine ⟨?_, ?_, ?_, ?_⟩
        · intro gp hgp sp hsp e he
          rw [e1] at hgp
          exact c1 gp hgp sp hsp e he
        · intro l' hl' e he
          rw [e4] at hl'
          have hll := Option.some.inj hl'
          rw [← hll] at he
          rw [e3]
          rcases List.mem_append.mp he with h1 | h1
          · exact c2 l hl e h1
          · have he0 : e = e0 := by simpa using h1
            rw [he0]
            exact ha4
        · intro p hp hcomp
          rw [e5] at hp
          rw [hfva]
          rcases mem_dinsert_inv hp with hnew | holdm
          · have hpe : p.2 = e0 := by rw [hnew]
            rw [hpe] at hcomp ⊢
            have hgc : g0 = pystr "component" := by
              have hx := ha4.mp hcomp
              rw [hg0] at hx
              exact Option.some.inj hx
            subst hgc
            obtain ⟨sgs, hsgs⟩ := w3 _ hg0
            exact ⟨_, updFirst_mem_self _ hsgs, (sn, l ++ [e0]),
              mem_dinsert_self _ _ _, by simp⟩
          · have hig := c3 p holdm hcomp
            rw [hfvs] at hig
            exact inGroup_growSub (fun x hx => List.mem_append_left _ hx)
              (w4 sn g0 l hsn hg0 hl) hig
        · intro p hp hcomp
          rw [e6] at hp
          rw [hfva]
          rcases mem_dinsert_inv hp with hnew | holdm
          · have hpe : p.2 = e0 := by rw [hnew]
            rw [hpe] at hcomp ⊢
            have hgc : g0 = pystr "component" := by
              have hx := ha4.mp hcomp
              rw [hg0] at hx
              exact Option.some.inj hx
            subst hgc
            obtain ⟨sgs, hsgs⟩ := w3 _ hg0
            exact ⟨_, updFirst_mem_self _ hsgs, (sn, l ++ [e0]),
              mem_dinsert_self _ _ _, by simp⟩
          · have hig := c4 p holdm hcomp
            rw [hfvs] at hig
            exact inGroup_growSub (fun x hx => List.mem_append_left _ hx)
              (w4 sn g0 l hsn hg0 hl) hig
      · rw [if_neg hq] at ha5
        have e1 : st'.group_table = st.group_table := by rw [ha5]
        have e2 : st'.subgroup_name = st.subgroup_name := by rw [ha5]
        have e3 : st'.group_name = st.group_name := by rw [ha5]
        have e4 : st'.subgroup = st.subgroup := by rw [ha5]
        have e5 : st'.name_table = st.name_table := by rw [ha5]
        have e6 : st'.codepoint_table = dinsert e0.codepoints e0 st.codepoint_table := by
          rw [ha5]
        have hfv : flushView st' = flushView st := flushView_congr e2 e3 e4 e1
        refine ⟨?_, ?_, ?_, ?_⟩
        · intro gp hgp sp hsp e he
          rw [e1] at hgp
          exact c1 gp hgp sp hsp e he
        · intro l' hl' e he
          rw [e4] at hl'
          rw [e3]
          exact c2 l' hl' e he
        · intro p hp hcomp
          rw [e5] at hp
          rw [hfv]
          exact c3 p hp hcomp
        · intro p hp hcomp
          rw [e6] at hp
          rw [hfv]
          rcases mem_dinsert_inv hp with hnew | holdm
          · have hpe : p.2 = e0 := by rw [hnew]
            rw [hpe] at hcomp
            exact absurd (by simp [hcomp]) hq
          · exact c4 p holdm hcomp

theorem processLines_compInv : ∀ (items : List PItem) (st st' : PState),
    processLines st items = Except.ok st' → WfState st → CompInv st →
    WfState st' ∧ CompInv st' := by
  intro items
  induction items with
  | nil =>
    intro st st' h hw hc
    have : st = st' := by simpa [processLines] using h
    rw [← this]
    exact ⟨hw, hc⟩
  | cons it rest ih =>
    intro st st' h hw hc
    rw [processLines] at h
    obtain ⟨st1, h1, h2⟩ := (bind_eq_ok _ _ _).mp h
    have hwb : WfState { st with lineno := st.lineno + 1 } := wf_lineno st _ hw
    have hcb : CompInv { st with lineno := st.lineno + 1 } := compInv_lineno st _ hc
    exact ih st1 st' h2 (wf_step h1 hwb) (compInv_step h1 hwb hcb)





/-- C5: in every successfully built registry an entry recorded in the
group table has component status exactly when its group is the one named
`component`, and every component entry of the name and codepoint tables
occurs in that group; during parsing, a registrable component data line
outside that group raises the fatal component-outside error, and a
registrable non-component data line inside it raises the fatal
non-component-inside error (the structured `self.error` of
`add_emoji`). -/
theorem c5_component_group {items : List PItem}
    {nt ct : List (List Nat × Emoji)} {gt : GroupDict}
    (h : runParser items = Except.ok (nt, ct, gt)) :
    (∀ gp : List Nat × SubgroupDict, gp ∈ gt → ∀ sp : List Nat × List Emoji,
      sp ∈ gp.2 → ∀ e : Emoji, e ∈ sp.2 →
        (e.is_component = true ↔ gp.1 = pystr "component")) ∧
    (∀ p : List Nat × Emoji, p ∈ nt → p.2.is_component = true →
      inGroup gt (pystr "component") p.2) ∧
    (∀ p : List Nat × Emoji, p ∈ ct → p.2.is_component = true →
      inGroup gt (pystr "component") p.2) ∧
    (∀ s : PState, ∀ e : Emoji, s.subgroup_name.isSome = true →
      alookup e.codepoints s.codepoint_table = none →
      alookup e.name s.name_table = none →
      e.is_component = true → ¬ s.group_name = some (pystr "component") →
      addEmoji s e =
        Except.error ⟨s.lineno, ParseErrKind.componentOutsideComponentGroup⟩) ∧
    (∀ s : PState, ∀ e : Emoji, s.subgroup_name.isSome = true →
      alookup e.codepoints s.codepoint_table = none →
      (e.is_fully_qualified = true → alookup e.name s.name_table = none) →
      e.is_component = false → s.group_name = some (pystr "component") →
      addEmoji s e =
        Except.error ⟨s.lineno, ParseErrKind.nonComponentInComponentGroup⟩) := by
  obtain ⟨st, hpl, hnt, hgt, hrp⟩ := runParser_ok_inv h
  have hwi : WfState initState :=
    ⟨fun _ => rfl, fun sn hx => by simp [initState] at hx,
     fun g hx => by simp [initState] at hx,
     fun sn g l hx => by simp [initState] at hx⟩
  obtain ⟨hw, hc⟩ := processLines_compInv items initState st hpl hwi compInv_init
  obtain ⟨c1, c2, c3, c4⟩ := hc
  refine ⟨?_, ?_, ?_, ?_, ?_⟩
  · rw [hgt]
    exact cg_flushView hw c1 c2
  · intro p hp hcomp
    rw [hnt] at hp
    rw [hgt]
    exact c3 p hp hcomp
  · intro p hp hcomp
    rcases repoint_mem hrp p hp with h1 | ⟨n, h1⟩
    · rcases List.mem_map.mp h1 with ⟨q, hq, hq2⟩
      rw [← hq2] at hcomp
      rw [hgt, ← hq2]
      exact c4 q hq hcomp
    · rw [hgt]
      exact c3 (n, p.2) h1 hcomp
  · intro s e hsub hcp hname hcompT hgn
    obtain ⟨sn, hx⟩ : ∃ sn, s.subgroup_name = some sn := by
      cases hx : s.subgroup_name with
      | none => rw [hx] at hsub; simp at hsub
      | some sn => exact ⟨sn, rfl⟩
    rw [addEmoji, hx, hcp, hname]
    rw [if_neg (by simp), if_neg (by simp), if_neg (by simp), if_neg (by simp),
      if_neg (by simp [hcompT]), if_pos (by simp [hcompT, hgn])]
  · intro s e hsub hcp hnameFq hcompF hgn
    obtain ⟨sn, hx⟩ : ∃ sn, s.subgroup_name = some sn := by
      cases hx : s.subgroup_name with
      | none => rw [hx] at hsub; simp at hsub
      | some sn => exact ⟨sn, rfl⟩
    by_cases hfq2 : e.is_fully_qualified = true
    · rw [addEmoji, hx, hcp, hnameFq hfq2]
      rw [if_neg (by simp), if_neg (by simp), if_neg (by simp), if_neg (by simp),
        if_pos (by simp [hcompF, hgn])]
    · have hfq3 : e.is_fully_qualified = false := by
        cases hh : e.is_fully_qualified
        · rfl
        · exact absurd hh hfq2
      rw [addEmoji, hx, hcp]
      rw [if_neg (by simp), if_neg (by simp), if_neg (by simp [hcompF]),
        if_neg (by simp [hfq3]), if_pos (by simp [hcompF, hgn])]

theorem c5_component_group_witness :
    inGroup (regGtOf (runParser exComponentPeerSource)) (pystr "component")
      exAlphaComponent ∧
    addEmoji exC5OutState exAlphaComponent =
      Except.error ⟨5, ParseErrKind.componentOutsideComponentGroup⟩ ∧
    addEmoji exC5InState exBravoFq =
      Except.error ⟨7, ParseErrKind.nonComponentInComponentGroup⟩ :=
  ⟨(@c5_component_group exComponentPeerSource (regNtOf (runParser exComponentPeerSource))
      (regCtOf (runParser exComponentPeerSource)) (regGtOf (runParser exComponentPeerSource))
      (by rfl)).2.1 (to_name (pystr "alpha"), exAlphaComponent)
      (by decide) (by decide),
   (@c5_component_group exComponentPeerSource (regNtOf (runParser exComponentPeerSource))
      (regCtOf (runParser exComponentPeerSource)) (regGtOf (runParser exComponentPeerSource))
      (by rfl)).2.2.2.1 exC5OutState exAlphaComponent
      (by decide) (by decide) (by decide) (by decide) (by decide),
   (@c5_component_group exComponentPeerSource (regNtOf (runParser exComponentPeerSource))
      (regCtOf (runParser exComponentPeerSource)) (regGtOf (runParser exComponentPeerSource))
      (by rfl)).2.2.2.2 exC5InState exBravoFq
      (by decide) (by decide) (fun _ => by decide) (by decide) (by decide)⟩

theorem lowerCp_idem (c : Nat) : lowerCp (lowerCp c) = lowerCp c := by
  rw [lowerCp, lowerCp]
  split
  · split
    · omega
    · rfl
  · rfl

theorem stripLower_all (s : List Nat) :
    (stripPunct (pyLower s)).all
      (fun c => (lowerCp c == c) && !(punctCps.contains c)) = true := by
  rw [List.all_eq_true]
  intro c hc
  rw [stripPunct, List.mem_filter] at hc
  obtain ⟨hmem, hpred⟩ := hc
  rw [pyLower, List.mem_map] at hmem
  obtain ⟨a, _, ha⟩ := hmem
  have hfix : lowerCp c = c := by rw [← ha, lowerCp_idem]
  rw [Bool.and_eq_true]
  exact ⟨beq_iff_eq.mpr hfix, hpred⟩

theorem collapseAux_all : ∀ (s : List Nat),
    s.all (fun c => (lowerCp c == c) && !(punctCps.contains c)) = true →
    ∀ b, (collapseAux b s).all goodCh = true := by
  intro s
  induction s with
  | nil => intro _ b; rfl
  | cons c rest ih =>
    intro h b
    rw [List.all_cons, Bool.and_eq_true] at h
    obtain ⟨h1, h2⟩ := h
    rw [collapseAux]
    by_cases hs : isSepCp c = true
    · rw [if_pos hs]
      cases b with
      | true => rw [if_pos rfl]; exact ih h2 true
      | false =>
        rw [if_neg (by simp), List.all_cons, Bool.and_eq_true]
        exact ⟨by decide, ih h2 true⟩
    · rw [if_neg hs, List.all_cons, Bool.and_eq_true]
      have hg : goodCh c = true := by
        rw [goodCh]
        simp only [isSepCp, Bool.or_eq_true, beq_iff_eq] at hs
        push_neg at hs
        simp only [Bool.and_eq_true, beq_iff_eq, Bool.not_eq_true'] at h1
        rw [h1.2]
        simp [beq_iff_eq, h1.1, hs.1.1, hs.1.2]
      exact ⟨hg, ih h2 false⟩

theorem headSep_collapseAux_true : ∀ (s : List Nat),
    headSep (collapseAux true s) = false := by
  intro s
  induction s with
  | nil => rfl
  | cons c rest ih =>
    rw [collapseAux]
    by_cases hs : isSepCp c = true
    · rw [if_pos hs, if_pos rfl]
      exact ih
    · rw [if_neg hs, headSep]
      exact Bool.eq_false_iff.mpr hs

theorem noAdjSep_collapseAux : ∀ (s : List Nat) (b : Bool),
    noAdjSep (collapseAux b s) = true := by
  intro s
  induction s with
  | nil => intro b; rfl
  | cons c rest ih =>
    intro b
    rw [collapseAux]
    by_cases hs : isSepCp c = true
    · rw [if_pos hs]
      cases b with
      | true => rw [if_pos rfl]; exact ih true
      | false =>
        rw [if_neg (by simp), noAdjSep, headSep_collapseAux_true rest]
        simp [ih true]
    · rw [if_neg hs, noAdjSep, Bool.eq_false_iff.mpr hs]
      simp [ih false]

theorem collapseAux_fixed : ∀ (s : List Nat) (b : Bool),
    s.all (fun c => !(c == 32) && !(c == 95)) = true →
    noAdjSep s = true → (b = true → headSep s = false) →
    collapseAux b s = s := by
  intro s
  induction s with
  | nil => intro b _ _ _; rfl
  | cons c rest ih =>
    intro b hall hadj hhead
    rw [List.all_cons, Bool.and_eq_true] at hall
    rw [noAdjSep, Bool.and_eq_true] at hadj
    rw [collapseAux]
    by_cases hs : isSepCp c = true
    · have hb : b = false := by
        cases b
        · rfl
        · have hx := hhead rfl
          rw [headSep, hs] at hx
          exact absurd hx (by simp)
      subst hb
      rw [if_pos hs, if_neg (by simp)]
      have hc45 : c = 45 := by
        rw [isSepCp] at hs
        simp only [Bool.or_eq_true, beq_iff_eq] at hs
        simp only [Bool.and_eq_true, Bool.not_eq_true', beq_eq_false_iff_ne] at hall
        rcases hs with (hx | hx) | hx
        · exact absurd hx hall.1.1
        · exact absurd hx hall.1.2
        · exact hx
      rw [hc45]
      congr 1
      refine ih true hall.2 hadj.2 ?_
      intro _
      have h1 := hadj.1
      rw [hs] at h1
      simpa using h1
    · rw [if_neg hs]
      congr 1
      refine ih false hall.2 hadj.2 ?_
      intro hx
      exact absurd hx (by simp)

theorem pyLower_fixed : ∀ {s : List Nat},
    s.all (fun c => lowerCp c == c) = true → pyLower s = s := by
  intro s
  induction s with
  | nil => intro _; rfl
  | cons c rest ih =>
    intro h
    rw [List.all_cons, Bool.and_eq_true] at h
    have hr := ih h.2
    rw [pyLower] at hr ⊢
    rw [List.map_cons, hr, beq_iff_eq.mp h.1]

theorem stripPunct_fixed : ∀ {s : List Nat},
    s.all (fun c => !(punctCps.contains c)) = true → stripPunct s = s := by
  intro s h
  rw [stripPunct]
  rw [List.filter_eq_self.mpr]
  intro c hc
  exact (List.all_eq_true.mp h) c hc

theorem headSep_replAux {p r : List Nat} (hr : r ≠ [])
    (hrs : r.all (fun c => !(isSepCp c)) = true) :
    ∀ (fuel : Nat) (s : List Nat),
      headSep (replAux p r fuel s) = true → headSep s = true := by
  intro fuel
  induction fuel with
  | zero =>
    intro s h
    cases s with
    | nil => exact h
    | cons c rest => exact h
  | succ n ih =>
    intro s h
    cases s with
    | nil => exact h
    | cons c rest =>
      rw [replAux] at h
      split at h
      · cases r with
        | nil => exact absurd rfl hr
        | cons rc rrest =>
          rw [List.all_cons, Bool.and_eq_true] at hrs
          rw [List.cons_append, headSep] at h
          have h1 : isSepCp rc = false := by simpa using hrs.1
          rw [h1] at h
          exact absurd h (by simp)
      · rw [headSep] at h
        rw [headSep]
        exact h

theorem all_replAux {p r : List Nat} {P : Nat → Bool} (hra : r.all P = true) :
    ∀ (fuel : Nat) (s : List Nat), s.all P = true →
      (replAux p r fuel s).all P = true := by
  intro fuel
  induction fuel with
  | zero =>
    intro s hs
    cases s with
    | nil => rfl
    | cons c rest => exact hs
  | succ n ih =>
    intro s hs
    cases s with
    | nil => rfl
    | cons c rest =>
      rw [replAux]
      split
      · rw [List.all_append, Bool.and_eq_true]
        refine ⟨hra, ih _ ?_⟩
        rw [List.all_eq_true] at hs ⊢
        intro x hx
        exact hs x (List.mem_of_mem_drop hx)
      · rw [List.all_cons, Bool.and_eq_true] at hs
        rw [List.all_cons, Bool.and_eq_true]
        exact ⟨hs.1, ih rest hs.2⟩

theorem noAdjSep_append_of_all : ∀ {r z : List Nat},
    r.all (fun c => !(isSepCp c)) = true → noAdjSep z = true →
    noAdjSep (r ++ z) = true := by
  intro r
  induction r with
  | nil => intro z _ hz; exact hz
  | cons c rest ih =>
    intro z hrs hz
    rw [List.all_cons, Bool.and_eq_true] at hrs
    rw [List.cons_append, noAdjSep, Bool.and_eq_true]
    refine ⟨?_, ih hrs.2 hz⟩
    have h1 : isSepCp c = false := by simpa using hrs.1
    rw [h1]
    rfl

theorem noAdjSep_drop : ∀ (n : Nat) (s : List Nat), noAdjSep s = true →
    noAdjSep (s.drop n) = true := by
  intro n
  induction n with
  | zero => intro s hs; exact hs
  | succ m ih =>
    intro s hs
    cases s with
    | nil => rfl
    | cons c rest =>
      rw [List.drop_succ_cons]
      rw [noAdjSep, Bool.and_eq_true] at hs
      exact ih rest hs.2

theorem noAdjSep_replAux {p r : List Nat} (hr : r ≠ [])
    (hrs : r.all (fun c => !(isSepCp c)) = true) :
    ∀ (fuel : Nat) (s : List Nat), noAdjSep s = true →
      noAdjSep (replAux p r fuel s) = true := by
  intro fuel
  induction fuel with
  | zero =>
    intro s hs
    cases s with
    | nil => rfl
    | cons c rest => exact hs
  | succ n ih =>
    intro s hs
    cases s with
    | nil => rfl
    | cons c rest =>
      rw [replAux]
      split
      · exact noAdjSep_append_of_all hrs (ih _ (noAdjSep_drop _ _ hs))
      · rw [noAdjSep, Bool.and_eq_true] at hs
        rw [noAdjSep, Bool.and_eq_true]
        refine ⟨?_, ih rest hs.2⟩
        by_cases hc : isSepCp c = true
        · have hhr : headSep rest = false := by
            have h1 := hs.1
            rw [hc] at h1
            simpa using h1
          have h2 : headSep (replAux p r n rest) = false := by
            cases hh : headSep (replAux p r n rest)
            · rfl
            · exact absurd (headSep_replAux hr hrs n rest hh) (by simp [hhr])
          rw [hc, h2]
          rfl
        · rw [Bool.eq_false_iff.mpr hc]
          rfl

theorem all_pyReplace {s p r : List Nat} {P : Nat → Bool} (hra : r.all P = true)
    (hs : s.all P = true) : (pyReplace s p r).all P = true :=
  all_replAux hra s.length s hs

theorem noAdjSep_pyReplace {s p r : List Nat} (hr : r ≠ [])
    (hrs : r.all (fun c => !(isSepCp c)) = true) (hs : noAdjSep s = true) :
    noAdjSep (pyReplace s p r) = true :=
  noAdjSep_replAux hr hrs s.length s hs

theorem containsSeq_infix_iff {p : List Nat} : ∀ {s : List Nat},
    containsSeq p s = true ↔ p <:+: s := by
  intro s
  induction s with
  | nil =>
    rw [containsSeq]
    cases p with
    | nil => simp
    | cons a q => simp [List.isEmpty]
  | cons c rest ih =>
    rw [containsSeq]
    rw [Bool.or_eq_true, ih]
    rw [ List.infix_cons_iff]
    constructor
    · rintro (h | h)
      · exact Or.inl ( List.isPrefixOf_iff_prefix.mp h)
      · exact Or.inr h
    · rintro (h | h)
      · exact Or.inl ( List.isPrefixOf_iff_prefix.mpr h)
      · exact Or.inr h

theorem replAux_noop {p r : List Nat} : ∀ (fuel : Nat) (s : List Nat),
    containsSeq p s = false → replAux p r fuel s = s := by
  intro fuel
  induction fuel with
  | zero =>
    intro s _
    cases s with
    | nil => rfl
    | cons c rest => rfl
  | succ n ih =>
    intro s h
    cases s with
    | nil => rfl
    | cons c rest =>
      rw [containsSeq] at h
      have h1 : p.isPrefixOf (c :: rest) = false ∧ containsSeq p rest = false := by
        cases hx : p.isPrefixOf (c :: rest)
        · cases hy : containsSeq p rest
          · exact ⟨rfl, rfl⟩
          · rw [hx, hy] at h; simp at h
        · rw [hx] at h; simp at h
      rw [replAux, if_neg (by simp [h1.1]), ih rest h1.2]

theorem pyReplace_noop {s p r : List Nat} (h : containsSeq p s = false) :
    pyReplace s p r = s := replAux_noop s.length s h

theorem containsSeq_mono {q s : List Nat} (hsub : pystr "skin-tone" <:+: q)
    (h : containsSeq (pystr "skin-tone") s = false) : containsSeq q s = false := by
  cases hq : containsSeq q s
  · rfl
  · have h2 : q <:+: s := containsSeq_infix_iff.mp hq
    have h3 : pystr "skin-tone" <:+: s := hsub.trans h2
    rw [containsSeq_infix_iff.mpr h3] at h
    simp at h

theorem applyReplacements_noop {s : List Nat}
    (h : containsSeq (pystr "skin-tone") s = false) : applyReplacements s = s := by
  have e1 : pyReplace s (pystr "medium-dark-skin-tone") (pystr "darker") = s :=
    pyReplace_noop (containsSeq_mono ⟨pystr "medium-dark-", [], by decide⟩ h)
  have e2 : pyReplace s (pystr "medium-light-skin-tone") (pystr "lighter") = s :=
    pyReplace_noop (containsSeq_mono ⟨pystr "medium-light-", [], by decide⟩ h)
  have e3 : pyReplace s (pystr "medium-skin-tone") (pystr "medium") = s :=
    pyReplace_noop (containsSeq_mono ⟨pystr "medium-", [], by decide⟩ h)
  have e4 : pyReplace s (pystr "dark-skin-tone") (pystr "darkest") = s :=
    pyReplace_noop (containsSeq_mono ⟨pystr "dark-", [], by decide⟩ h)
  have e5 : pyReplace s (pystr "light-skin-tone") (pystr "lightest") = s :=
    pyReplace_noop (containsSeq_mono ⟨pystr "light-", [], by decide⟩ h)
  rw [applyReplacements, skinReplacements]
  simp only [List.foldl_cons, List.foldl_nil]
  rw [e1, e2, e3, e4, e5]

theorem renaming_values_fixed :
    RENAMING.all (fun pr => to_name pr.2 == pr.2) = true := by decide

/-- C7 (amended): `to_name` is idempotent on every input whose one-pass
result no longer contains the phrase `skin-tone`; re-normalizing such a
result is a no-op. -/
theorem c7_to_name_conditional_idem (s : List Nat)
    (h : containsSeq (pystr "skin-tone") (to_name s) = false) :
    to_name (to_name s) = to_name s := by
  cases hre : alookup (applyReplacements (collapseSep (stripPunct (pyLower s))))
      RENAMING with
  | some v =>
    have hy : to_name s = v := by
      have hdef : to_name s =
          (alookup (applyReplacements (collapseSep (stripPunct (pyLower s))))
            RENAMING).getD
            (applyReplacements (collapseSep (stripPunct (pyLower s)))) := rfl
      rw [hdef, hre, Option.getD_some]
    have hmem := alookup_mem hre
    have hval : to_name v = v := by
      have hx := (List.all_eq_true.mp renaming_values_fixed) _ hmem
      simpa using hx
    rw [hy, hval]
  | none =>
    have hy : to_name s = applyReplacements (collapseSep (stripPunct (pyLower s))) := by
      have hdef : to_name s =
          (alookup (applyReplacements (collapseSep (stripPunct (pyLower s))))
            RENAMING).getD
            (applyReplacements (collapseSep (stripPunct (pyLower s)))) := rfl
      rw [hdef, hre, Option.getD_none]
    rw [hy] at h ⊢
    have hn2 := stripLower_all s
    have hn3a : (collapseSep (stripPunct (pyLower s))).all goodCh = true :=
      collapseAux_all _ hn2 false
    have hn3adj : noAdjSep (collapseSep (stripPunct (pyLower s))) = true :=
      noAdjSep_collapseAux (stripPunct (pyLower s)) false
    have hunf : applyReplacements (collapseSep (stripPunct (pyLower s))) =
        pyReplace (pyReplace (pyReplace (pyReplace (pyReplace
          (collapseSep (stripPunct (pyLower s)))
          (pystr "medium-dark-skin-tone") (pystr "darker"))
          (pystr "medium-light-skin-tone") (pystr "lighter"))
          (pystr "medium-skin-tone") (pystr "medium"))
          (pystr "dark-skin-tone") (pystr "darkest"))
          (pystr "light-skin-tone") (pystr "lightest") := rfl
    have hyall : (applyReplacements (collapseSep (stripPunct (pyLower s)))).all
        goodCh = true := by
      rw [hunf]
      exact all_pyReplace (by decide) (all_pyReplace (by decide) (all_pyReplace
        (by decide) (all_pyReplace (by decide) (all_pyReplace (by decide) hn3a))))
    have hyadj : noAdjSep (applyReplacements (collapseSep (stripPunct (pyLower s))))
        = true := by
      rw [hunf]
      exact noAdjSep_pyReplace (by decide) (by decide)
        (noAdjSep_pyReplace (by decide) (by decide)
          (noAdjSep_pyReplace (by decide) (by decide)
            (noAdjSep_pyReplace (by decide) (by decide)
              (noAdjSep_pyReplace (by decide) (by decide) hn3adj))))
    have hsplit : ∀ c ∈ applyReplacements (collapseSep (stripPunct (pyLower s))),
        lowerCp c = c ∧ punctCps.contains c = false ∧
          (c == 32) = false ∧ (c == 95) = false := by
      intro c hc
      have hx := (List.all_eq_true.mp hyall) c hc
      rw [goodCh] at hx
      simp only [Bool.and_eq_true, beq_iff_eq, Bool.not_eq_true'] at hx
      exact ⟨hx.1.1.1, hx.1.1.2, hx.1.2, hx.2⟩
    have hlow : pyLower (applyReplacements (collapseSep (stripPunct (pyLower s)))) =
        applyReplacements (collapseSep (stripPunct (pyLower s))) := by
      refine pyLower_fixed ?_
      rw [List.all_eq_true]
      intro c hc
      show (lowerCp c == c) = true
      exact beq_iff_eq.mpr (hsplit c hc).1
    have hstrip : stripPunct (applyReplacements (collapseSep (stripPunct (pyLower s))))
        = applyReplacements (collapseSep (stripPunct (pyLower s))) := by
      refine stripPunct_fixed ?_
      rw [List.all_eq_true]
      intro c hc
      show (!(punctCps.contains c)) = true
      rw [(hsplit c hc).2.1]
      rfl
    have hcol : collapseSep (applyReplacements (collapseSep (stripPunct (pyLower s))))
        = applyReplacements (collapseSep (stripPunct (pyLower s))) := by
      rw [collapseSep]
      refine collapseAux_fixed _ false ?_ hyadj ?_
      · rw [List.all_eq_true]
        intro c hc
        show (!(c == 32) && !(c == 95)) = true
        rw [(hsplit c hc).2.2.1, (hsplit c hc).2.2.2]
        rfl
      · intro hx
        exact absurd hx (by simp)
    have happ := applyReplacements_noop h
    have hdef2 : to_name (applyReplacements (collapseSep (stripPunct (pyLower s)))) =
        (alookup (applyReplacements (collapseSep (stripPunct (pyLower
          (applyReplacements (collapseSep (stripPunct (pyLower s)))))))) RENAMING).getD
          (applyReplacements (collapseSep (stripPunct (pyLower
            (applyReplacements (collapseSep (stripPunct (pyLower s)))))))) := rfl
    rw [hdef2, hlow, hstrip, hcol, happ, hre, Option.getD_none]

/-- C7 counterexample: `to_name` is not idempotent in general.  One pass
over `medium-medium-skin-tone-skin-tone` consumes its first embedded
`medium-skin-tone` without re-scanning, leaving a name that still
matches that pattern, so a second pass changes the name again. -/
theorem c7_to_name_not_idempotent_cex :
    to_name (to_name (pystr "medium-medium-skin-tone-skin-tone")) ≠
      to_name (pystr "medium-medium-skin-tone-skin-tone") := by decide

theorem c7_to_name_conditional_idem_witness :
    containsSeq (pystr "skin-tone") (to_name (pystr "Grinning Face")) = false ∧
    to_name (to_name (pystr "Grinning Face")) = to_name (pystr "Grinning Face") :=
  ⟨by decide, c7_to_name_conditional_idem (pystr "Grinning Face") (by decide)⟩
